import Mathlib

/-!
Matchmaker: a shallow embedding of `pkg/models/match.go`,
`pkg/matchmaker/matchmaker.go` and `pkg/metrics/metrics.go`

The Go program keeps a FIFO queue of waiting player ids and two maps from match id to
match.  The embedding below is sequential: the `sync.RWMutex` of the Go struct serialises
the calls, so one call is one function from state to state here.

Conventions

* Go maps `map[string]*Match` are `Store`s: association lists with at most one entry per
  key, `Store.set` overwriting like a Go map assignment.
* `time.Now().Unix()` and `generateMatchID()` read the outside world.  The `World` carries
  the two streams of answers (`clock`, `ids`) and how many of each were consumed so far.
  Nothing is assumed about the streams unless a theorem says so; in particular two
  generated ids may coincide.
* `World.formed` is a history variable: the complete matches in the order the formation
  loop created them.  No operation reads it.
* Pointers: every `*Match` the matchmaker stores is written to only before it is stored,
  so matches are plain values.  A nil pointer is `none`.
-/

namespace MatchMaker

/-! ## pkg/models/match.go -/

/-- Status constant `StatusWaiting`. -/
def StatusWaiting : String := "waiting"

/-- Status constant `StatusReady`. -/
def StatusReady : String := "ready"

/-- The Go struct `Match`; `ReadyAt` is `0` (Go zero value) until it is assigned. -/
structure Match where
  ID : String
  Players : List String
  Status : String
  UpdatedAt : Int
  ReadyAt : Int
deriving DecidableEq, Repr

/-- The outside world read by `time.Now().Unix()` and `generateMatchID()`, and the history
of complete matches formed so far (a history variable, never read by the program). -/
structure World where
  ids : Nat → String
  clock : Nat → Int
  idsUsed : Nat
  clockUsed : Nat
  formed : List Match

/-- A world in which nothing has been consumed yet. -/
def World.start (ids : Nat → String) (clock : Nat → Int) : World :=
  { ids := ids, clock := clock, idsUsed := 0, clockUsed := 0, formed := [] }

/-- One reading of `time.Now().Unix()`. -/
def World.now (w : World) : Int × World :=
  (w.clock w.clockUsed, { w with clockUsed := w.clockUsed + 1 })

/-- One call of `generateMatchID()`: the next id of the stream. -/
def World.generateMatchID (w : World) : String × World :=
  (w.ids w.idsUsed, { w with idsUsed := w.idsUsed + 1 })

/-- History variable update: a complete match was stored in `matchStore`. -/
def World.recordFormed (w : World) (mt : Match) : World :=
  { w with formed := w.formed ++ [mt] }

/-- Go `NewMatch(playerID)`: reads the clock, then generates the id. -/
def NewMatch (w : World) (playerID : String) : Match × World :=
  let t := w.now
  let g := t.2.generateMatchID
  ({ ID := g.1, Players := [playerID], Status := StatusWaiting, UpdatedAt := t.1, ReadyAt := 0 },
    g.2)

/-- Go `(*Match).AddPlayer(playerID)`. -/
def Match.AddPlayer (m : Match) (w : World) (playerID : String) : Match × World :=
  let t := w.now
  let m1 : Match := { m with Players := m.Players ++ [playerID], UpdatedAt := t.1 }
  if m1.Players.length = 3 then
    ({ m1 with Status := StatusReady, ReadyAt := m1.UpdatedAt }, t.2)
  else
    (m1, t.2)

/-- Go `(*Match).IsReady()`. -/
def Match.IsReady (m : Match) : Bool :=
  m.Status == StatusReady

/-! ## Go maps -/

/-- A Go `map[string]*Match`. -/
structure Store where
  entries : List (String × Match)
deriving DecidableEq, Repr

/-- Go `make(map[string]*Match)`. -/
def Store.empty : Store := ⟨[]⟩

/-- Go `v, ok := s[k]`: `some v` when `ok`. -/
def Store.get (s : Store) (k : String) : Option Match :=
  s.entries.lookup k

/-- Go `s[k] = v`. -/
def Store.set (s : Store) (k : String) (v : Match) : Store :=
  ⟨(k, v) :: s.entries.filter (fun e => e.1 != k)⟩

/-- The keys of the map. -/
def Store.keys (s : Store) : List String :=
  s.entries.map Prod.fst

/-- The values of the map. -/
def Store.values (s : Store) : List Match :=
  s.entries.map Prod.snd

/-- Go `len(s)`. -/
def Store.size (s : Store) : Nat :=
  s.entries.length

/-! ## pkg/matchmaker/matchmaker.go -/

/-- The errors of the package; `ErrMatchNotFound` is the only one. -/
inductive Error where
  | ErrMatchNotFound
deriving DecidableEq, Repr

/-- The Go struct `Matchmaker` without its mutex.  The Go field `matches` is `matchStore`
here, the name the specification uses, because `matches` is a reserved word of Lean. -/
structure Matchmaker where
  matchStore : Store
  waitingPlayers : List String
  pendingMatches : Store
deriving DecidableEq, Repr

/-- Go `NewMatchmaker()`. -/
def NewMatchmaker : Matchmaker :=
  { matchStore := Store.empty, waitingPlayers := [], pendingMatches := Store.empty }

/-- The variables the loop of `formMatches` works on. -/
structure FormState where
  waitingPlayers : List String
  matchStore : Store
  world : World
  playerMatch : Option Match

/-- The loop `for len(m.waitingPlayers) >= 3 { ... }` of `formMatches`; the first argument
after `playerID` is `m.waitingPlayers`. -/
def formLoop (playerID : String) :
    List String → Store → World → Option Match → FormState
  | p0 :: p1 :: p2 :: rest, store, w, playerMatch =>
    let players := [p0, p1, p2]
    let r0 := NewMatch w p0
    let r1 := r0.1.AddPlayer r0.2 p1
    let r2 := r1.1.AddPlayer r1.2 p2
    let mt := r2.1
    let store1 := store.set mt.ID mt
    let w1 := r2.2.recordFormed mt
    let playerMatch1 := if players.contains playerID then some mt else playerMatch
    formLoop playerID rest store1 w1 playerMatch1
  | waiting, store, w, playerMatch =>
    { waitingPlayers := waiting, matchStore := store, world := w, playerMatch := playerMatch }

/-- What a call on the matchmaker hands back: the returned pointer, the returned error and
the state after the call. -/
structure Ret where
  result : Option Match
  err : Option Error
  mm : Matchmaker
  world : World

/-- Go `(*Matchmaker).formMatches(playerID)`; the Go function returns only the pointer. -/
def Matchmaker.formMatches (m : Matchmaker) (w : World) (playerID : String) : Ret :=
  let st := formLoop playerID m.waitingPlayers m.matchStore w none
  match st.playerMatch with
  | some pm =>
    { result := some pm, err := none,
      mm := { matchStore := st.matchStore, waitingPlayers := st.waitingPlayers,
              pendingMatches := m.pendingMatches },
      world := st.world }
  | none =>
    let r := NewMatch st.world playerID
    { result := some r.1, err := none,
      mm := { matchStore := st.matchStore, waitingPlayers := st.waitingPlayers,
              pendingMatches := m.pendingMatches.set r.1.ID r.1 },
      world := r.2 }

/-- Go `(*Matchmaker).AddPlayer(playerID)`. -/
def Matchmaker.AddPlayer (m : Matchmaker) (w : World) (playerID : String) : Ret :=
  let m1 : Matchmaker := { m with waitingPlayers := m.waitingPlayers ++ [playerID] }
  let r := m1.formMatches w playerID
  { result := r.result, err := none, mm := r.mm, world := r.world }

/-- Go `(*Matchmaker).GetMatch(matchID)`. -/
def Matchmaker.GetMatch (m : Matchmaker) (w : World) (matchID : String) : Ret :=
  match m.matchStore.get matchID with
  | some mt => { result := some mt, err := none, mm := m, world := w }
  | none =>
    match m.pendingMatches.get matchID with
    | some mt => { result := some mt, err := none, mm := m, world := w }
    | none => { result := none, err := some Error.ErrMatchNotFound, mm := m, world := w }

/-! ## Sequences of calls -/

/-- A call on the matchmaker. -/
inductive Call where
  | addPlayer (playerID : String)
  | getMatch (matchID : String)
deriving DecidableEq, Repr

/-- One call. -/
def Matchmaker.call (m : Matchmaker) (w : World) : Call → Ret
  | Call.addPlayer p => m.AddPlayer w p
  | Call.getMatch k => m.GetMatch w k

/-- The calls of a list one after another; the returned values in call order and the
final state. -/
def runCalls (m : Matchmaker) (w : World) : List Call → List Ret × Matchmaker × World
  | [] => ([], m, w)
  | c :: cs =>
    let r := m.call w c
    let rest := runCalls r.mm r.world cs
    (r :: rest.1, rest.2.1, rest.2.2)

/-- Calls `AddPlayer` for each id of a list, one after another. -/
def addPlayers (m : Matchmaker) (w : World) (ps : List String) : List Ret × Matchmaker × World :=
  runCalls m w (ps.map Call.addPlayer)

/-- The states a matchmaker can be in: those a fresh one reaches by `AddPlayer` and
`GetMatch` calls, whatever the world answers. -/
inductive Reachable : Matchmaker → World → Prop where
  | fresh (ids : Nat → String) (clock : Nat → Int) :
      Reachable NewMatchmaker (World.start ids clock)
  | call {m : Matchmaker} {w : World} (c : Call) :
      Reachable m w → Reachable (m.call w c).mm (m.call w c).world

/-! ## Test worlds -/

/-- Ids `m0, m1, ...` for the first ten calls of the generator. -/
def testIds : Nat → String
  | 0 => "m0" | 1 => "m1" | 2 => "m2" | 3 => "m3" | 4 => "m4"
  | 5 => "m5" | 6 => "m6" | 7 => "m7" | 8 => "m8" | _ => "m9"

/-- A clock that advances one second per reading, starting at 100. -/
def testClock (i : Nat) : Int := 100 + i

/-- A world with pairwise distinct ids for the first ten matches. -/
def testWorld : World := World.start testIds testClock

/-- Three players join, one match is polled, a fourth player joins. -/
def testCalls : List Call :=
  [Call.addPlayer "p1", Call.addPlayer "p2", Call.addPlayer "p3", Call.getMatch "m0",
    Call.addPlayer "p4"]

/-- An id of the shape `generateMatchID` produces. -/
def collidingId : String := "match_20240101120000_aaaaaaaa"

/-- A world whose id generator answers `collidingId` every time: all calls fall into the
same second and the clock readings of `randomString` repeat modulo 62. -/
def sameIdWorld : World := World.start (fun _ => collidingId) testClock

/-! ## Measures and conditions used by the statements -/

/-- The sum of `len(Players)` over the entries of a map. -/
def Store.totalPlayers (s : Store) : Nat :=
  (s.values.map (fun mt => mt.Players.length)).sum

/-- The sum of `len(Players)` over every match of `pendingMatches` and `matchStore`. -/
def Matchmaker.totalPlayers (m : Matchmaker) : Nat :=
  m.matchStore.totalPlayers + m.pendingMatches.totalPlayers

/-- The first `n` ids of the generator are pairwise distinct. -/
def DistinctIds (ids : Nat → String) (n : Nat) : Prop :=
  ∀ i, i < n → ∀ j, j < n → ids i = ids j → i = j

instance (ids : Nat → String) (n : Nat) : Decidable (DistinctIds ids n) := by
  unfold DistinctIds
  infer_instance

/-- Every key of the two maps is an id the generator has already handed out. -/
def KeysGenerated (m : Matchmaker) (w : World) : Prop :=
  ∀ k, k ∈ m.matchStore.keys ++ m.pendingMatches.keys → ∃ i, i < w.idsUsed ∧ w.ids i = k

/-- The player lists of a list of matches, one after another. -/
def playersOf : List Match → List String
  | [] => []
  | mt :: rest => mt.Players ++ playersOf rest

/-! ## Closed forms used by the lemmas, and test states -/

/-- The match `NewMatch` builds in world `w`. -/
def pendingOf (w : World) (p : String) : Match :=
  { ID := w.ids w.idsUsed, Players := [p], Status := StatusWaiting,
    UpdatedAt := w.clock w.clockUsed, ReadyAt := 0 }

/-- The world after `NewMatch`. -/
def World.afterNew (w : World) : World :=
  { w with idsUsed := w.idsUsed + 1, clockUsed := w.clockUsed + 1 }

/-- The match one iteration of the formation loop builds in world `w` from the three
oldest ids of the queue. -/
def groupOf (w : World) (p0 p1 p2 : String) : Match :=
  { ID := w.ids w.idsUsed, Players := [p0, p1, p2], Status := StatusReady,
    UpdatedAt := w.clock (w.clockUsed + 2), ReadyAt := w.clock (w.clockUsed + 2) }

/-- The world after one iteration of the formation loop. -/
def World.afterGroup (w : World) (p0 p1 p2 : String) : World :=
  { w with idsUsed := w.idsUsed + 1, clockUsed := w.clockUsed + 3,
           formed := w.formed ++ [groupOf w p0 p1 p2] }

/-- The state after `AddPlayer` of `p1`, `p2`, `p3` when the generator answers
`collidingId` three times. -/
def collidedState : Matchmaker × World :=
  (addPlayers NewMatchmaker sameIdWorld ["p1", "p2", "p3"]).2

/-- The state after `AddPlayer("p1")` on a fresh matchmaker, ids `m0, m1, ...`. -/
def joinedOnce : Matchmaker × World :=
  (addPlayers NewMatchmaker testWorld ["p1"]).2

/-! ## Sequences of calls on one match -/

/-- Calls `(*Match).AddPlayer` for each id of a list, one after another. -/
def Match.addAll (m : Match) (w : World) : List String → Match × World
  | [] => (m, w)
  | p :: ps => Match.addAll (m.AddPlayer w p).1 (m.AddPlayer w p).2 ps

/-! ## What the formation loop builds from a whole queue -/

/-- The complete matches the formation loop builds from a queue in world `w`, oldest
first: one per full group of three. -/
def groupsOf (w : World) : List String → List Match
  | a :: b :: c :: rest => groupOf w a b c :: groupsOf (w.afterGroup a b c) rest
  | _ => []

/-- The ids of the `AddPlayer` calls of a list of calls, in call order. -/
def addedPlayers : List Call → List String
  | [] => []
  | Call.addPlayer p :: cs => p :: addedPlayers cs
  | Call.getMatch _ :: cs => addedPlayers cs

/-- A state no sequence of calls produces: seven ids queued, both maps empty. -/
def crowded : Matchmaker :=
  { matchStore := Store.empty, waitingPlayers := ["a", "b", "c", "d", "e", "f", "g"],
    pendingMatches := Store.empty }

/-- The two maps share no key. -/
def StoresDisjoint (m : Matchmaker) : Prop :=
  ∀ k, k ∈ m.matchStore.keys → k ∉ m.pendingMatches.keys

/-! ## Match ids: `generateMatchID` and `randomString` of pkg/models/match.go

`World.generateMatchID` above treats the id as an answer of the outside world.  The two
functions below compute it from what the Go code reads: the formatted wall-clock time
and one `time.Now().UnixNano()` reading per character. -/

/-- The constant `letters` of `randomString`. -/
def letters : List Char :=
  "abcdefghijklmnopqrstuvwxyzABCDEFGHIJKLMNOPQRSTUVWXYZ0123456789".toList

/-- The index `x % int64(len(letters))` for a clock reading `x`; Go's `%` truncates
toward zero, so the index is negative for a negative reading. -/
def letterIndex (x : Int) : Int :=
  Int.tmod x (letters.length : Int)

/-- The byte `letters[x % int64(len(letters))]`; an index outside the string panics,
which is `none` here. -/
def letterAt (x : Int) : Option Char :=
  if 0 ≤ letterIndex x ∧ letterIndex x < (letters.length : Int) then
    letters[(letterIndex x).toNat]?
  else
    none

/-- The loop `for i := range b` of `randomString`, from index `i` on with `n` bytes to
go; `nanos j` is the reading of `time.Now().UnixNano()` at index `j`. -/
def randomBytes (nanos : Nat → Int) : Nat → Nat → Option (List Char)
  | _, 0 => some []
  | i, n + 1 =>
    match letterAt (nanos i) with
    | none => none
    | some c => (randomBytes nanos (i + 1) n).map (fun rest => c :: rest)

/-- Go `randomString(n)` for `n >= 0`. -/
def randomString (nanos : Nat → Int) (n : Nat) : Option String :=
  (randomBytes nanos 0 n).map String.mk

/-- Go `generateMatchID()`; `stamp` is what `time.Now().Format("20060102150405")`
returns. -/
def generateMatchID (stamp : String) (nanos : Nat → Int) : Option String :=
  (randomString nanos 8).map (fun s => "match_" ++ stamp ++ "_" ++ s)

/-- Clock readings 1000, 1061, 1122, ...: 61 nanoseconds apart. -/
def testNanos (i : Nat) : Int := 1000 + 61 * i

/-! ## pkg/metrics/metrics.go

`time.Duration` and `int` are 64-bit signed integers; additions wrap around.  The mutex
and the `log.Printf` calls are left out. -/

/-- The value a 64-bit signed integer holds after an operation whose exact result is
`x`: Go wraps around silently. -/
def wrapInt64 (x : Int) : Int :=
  (x + 9223372036854775808) % 18446744073709551616 - 9223372036854775808

/-- The largest `time.Duration`, which `time.Since` returns when the exact difference
does not fit. -/
def maxDuration : Int := 9223372036854775807

/-- A Go map from endpoint name to a value; reading a missing key gives the zero value
of the value type. -/
structure EndpointMap (β : Type) where
  entries : List (String × β)

/-- Go `v, ok := s[k]`: `some v` when `ok`. -/
def EndpointMap.get {β : Type} (s : EndpointMap β) (k : String) : Option β :=
  s.entries.lookup k

/-- Go `s[k] = v`. -/
def EndpointMap.set {β : Type} (s : EndpointMap β) (k : String) (v : β) : EndpointMap β :=
  ⟨(k, v) :: s.entries.filter (fun e => e.1 != k)⟩

/-- The Go struct `Metrics` without its mutex. -/
structure Metrics where
  requestCounts : EndpointMap Int
  requestTimings : EndpointMap (List Int)

/-- Go `NewMetrics()`. -/
def NewMetrics : Metrics :=
  { requestCounts := ⟨[]⟩, requestTimings := ⟨[]⟩ }

/-- Go `m.requestTimings[endpoint]`: the nil slice for an endpoint without entry. -/
def Metrics.timingsOf (m : Metrics) (endpoint : String) : List Int :=
  (m.requestTimings.get endpoint).getD []

/-- Go `(*Metrics).IncrementRequestCount(endpoint)`. -/
def Metrics.IncrementRequestCount (m : Metrics) (endpoint : String) : Metrics :=
  { m with requestCounts :=
      m.requestCounts.set endpoint (wrapInt64 ((m.requestCounts.get endpoint).getD 0 + 1)) }

/-- Go `(*Metrics).StopTimer(endpoint, start)`; `duration` is what `time.Since(start)`
returns. -/
def Metrics.StopTimer (m : Metrics) (endpoint : String) (duration : Int) : Metrics :=
  { m with requestTimings :=
      m.requestTimings.set endpoint (m.timingsOf endpoint ++ [duration]) }

/-- The loop `for _, t := range timings { total += t }`. -/
def sumDurations (timings : List Int) : Int :=
  timings.foldl (fun total t => wrapInt64 (total + t)) 0

/-- Go `(*Metrics).GetAverageRequestTime(endpoint)`; Go's `/` truncates toward zero. -/
def Metrics.GetAverageRequestTime (m : Metrics) (endpoint : String) : Int :=
  let timings := m.timingsOf endpoint
  if timings.length = 0 then
    0
  else
    let total := sumDurations timings
    Int.tdiv total (timings.length : Int)

/-- Two requests to `join` whose timer was given the zero `time.Time` as start:
`time.Since` returns the largest duration both times. -/
def saturated : Metrics :=
  (NewMetrics.StopTimer "join" maxDuration).StopTimer "join" maxDuration

/-- Requests of 10, 4 and 7 nanoseconds, the middle one to another endpoint. -/
def sampled : Metrics :=
  ((NewMetrics.StopTimer "join" 10).StopTimer "status" 4).StopTimer "join" 7

/-! ## Lemmas on maps -/

theorem Store.get_set_self (s : Store) (k : String) (v : Match) :
    (s.set k v).get k = some v := by
  simp [Store.set, Store.get, List.lookup]

theorem lookup_filter_ne (es : List (String × Match)) (k k2 : String) (h : k2 ≠ k) :
    List.lookup k2 (es.filter (fun e => e.1 != k)) = List.lookup k2 es := by
  induction es with
  | nil => rfl
  | cons e es ih =>
    obtain ⟨a, b⟩ := e
    by_cases hak : a = k
    · subst hak
      have h1 : (k2 == a) = false := by simpa using h
      simp [List.filter, List.lookup, h1, ih]
    · have h2 : (a != k) = true := by simpa using hak
      simp only [List.filter, h2, List.lookup]
      rw [ih]

theorem Store.get_set_of_ne (s : Store) (k k2 : String) (v : Match) (h : k2 ≠ k) :
    (s.set k v).get k2 = s.get k2 := by
  have h1 : (k2 == k) = false := by simpa using h
  simp only [Store.set, Store.get, List.lookup, h1]
  exact lookup_filter_ne s.entries k k2 h

theorem lookup_eq_none_iff_not_mem (es : List (String × Match)) (k : String) :
    List.lookup k es = none ↔ k ∉ es.map Prod.fst := by
  induction es with
  | nil => simp
  | cons e es ih =>
    obtain ⟨a, b⟩ := e
    by_cases hak : k = a
    · subst hak
      simp [List.lookup]
    · have h1 : (k == a) = false := by simpa using hak
      simp [List.lookup, h1, ih, hak]

theorem mem_of_lookup_eq_some (es : List (String × Match)) (k : String) (v : Match)
    (h : List.lookup k es = some v) : (k, v) ∈ es := by
  induction es with
  | nil => simp at h
  | cons e es ih =>
    obtain ⟨a, b⟩ := e
    by_cases hak : k = a
    · subst hak
      simp [List.lookup] at h
      simp [h]
    · have h1 : (k == a) = false := by simpa using hak
      simp only [List.lookup, h1] at h
      exact List.mem_cons_of_mem _ (ih h)

theorem Store.mem_values_of_get (s : Store) (k : String) (v : Match) (h : s.get k = some v) :
    v ∈ s.values :=
  List.mem_map.2 ⟨(k, v), mem_of_lookup_eq_some s.entries k v h, rfl⟩

theorem Store.get_eq_none_iff (s : Store) (k : String) :
    s.get k = none ↔ k ∉ s.keys :=
  lookup_eq_none_iff_not_mem s.entries k

theorem Store.mem_keys_iff (s : Store) (k : String) :
    k ∈ s.keys ↔ ∃ v, s.get k = some v := by
  rw [← Option.isSome_iff_exists, ← not_iff_not, ← Store.get_eq_none_iff]
  cases s.get k <;> simp

theorem Store.mem_values_set (s : Store) (k : String) (v v2 : Match)
    (h : v2 ∈ (s.set k v).values) : v2 = v ∨ v2 ∈ s.values := by
  simp only [Store.set, Store.values, List.map_cons, List.mem_cons, List.mem_map,
    List.mem_filter] at h ⊢
  rcases h with h | ⟨e, ⟨he, _⟩, rfl⟩
  · exact Or.inl h
  · exact Or.inr ⟨e, he, rfl⟩

theorem Store.mem_keys_set (s : Store) (k k2 : String) (v : Match)
    (h : k2 ∈ (s.set k v).keys) : k2 = k ∨ k2 ∈ s.keys := by
  simp only [Store.set, Store.keys, List.map_cons, List.mem_cons, List.mem_map,
    List.mem_filter] at h ⊢
  rcases h with h | ⟨e, ⟨he, _⟩, rfl⟩
  · exact Or.inl h
  · exact Or.inr ⟨e, he, rfl⟩

theorem filter_ne_of_not_mem (es : List (String × Match)) (k : String)
    (h : k ∉ es.map Prod.fst) : es.filter (fun e => e.1 != k) = es := by
  rw [List.filter_eq_self]
  intro e he
  have : e.1 ≠ k := fun hk => h (hk ▸ List.mem_map_of_mem Prod.fst he)
  simpa using this

theorem Store.set_of_not_mem (s : Store) (k : String) (v : Match) (h : k ∉ s.keys) :
    (s.set k v).entries = (k, v) :: s.entries := by
  simp only [Store.set]
  rw [filter_ne_of_not_mem s.entries k h]

/-! ## One iteration of the formation loop, one call -/

/-- Induction on a queue in steps of three, the way the formation loop consumes it. -/
theorem list_threes {α : Type} {P : List α → Prop}
    (short : ∀ q : List α, q.length < 3 → P q)
    (step : ∀ (a b c : α) (rest : List α), P rest → P (a :: b :: c :: rest)) :
    ∀ q : List α, P q
  | [] => short [] (by simp)
  | [_] => short _ (by simp)
  | [_, _] => short _ (by simp)
  | a :: b :: c :: rest => step a b c rest (list_threes short step rest)

theorem NewMatch_eq (w : World) (p : String) :
    NewMatch w p = (pendingOf w p, w.afterNew) := rfl

theorem formLoop_short (pid : String) (q : List String) (h : q.length < 3) (s : Store)
    (w : World) (pm : Option Match) :
    formLoop pid q s w pm =
      { waitingPlayers := q, matchStore := s, world := w, playerMatch := pm } := by
  match q, h with
  | [], _ => rfl
  | [_], _ => rfl
  | [_, _], _ => rfl
  | _ :: _ :: _ :: _, h => simp at h; omega

theorem formLoop_step (pid p0 p1 p2 : String) (rest : List String) (s : Store) (w : World)
    (pm : Option Match) :
    formLoop pid (p0 :: p1 :: p2 :: rest) s w pm =
      formLoop pid rest (s.set (w.ids w.idsUsed) (groupOf w p0 p1 p2)) (w.afterGroup p0 p1 p2)
        (if [p0, p1, p2].contains pid then some (groupOf w p0 p1 p2) else pm) := by
  rw [formLoop]
  rfl

theorem AddPlayer_short (m : Matchmaker) (w : World) (p : String)
    (h : m.waitingPlayers.length < 2) :
    m.AddPlayer w p =
      { result := some (pendingOf w p), err := none,
        mm := { matchStore := m.matchStore, waitingPlayers := m.waitingPlayers ++ [p],
                pendingMatches := m.pendingMatches.set (w.ids w.idsUsed) (pendingOf w p) },
        world := w.afterNew } := by
  have hq : (m.waitingPlayers ++ [p]).length < 3 := by simp; omega
  simp only [Matchmaker.AddPlayer, Matchmaker.formMatches, formLoop_short _ _ hq, NewMatch_eq]
  rfl

theorem AddPlayer_two (m : Matchmaker) (w : World) (a b p : String)
    (h : m.waitingPlayers = [a, b]) :
    m.AddPlayer w p =
      { result := some (groupOf w a b p), err := none,
        mm := { matchStore := m.matchStore.set (w.ids w.idsUsed) (groupOf w a b p),
                waitingPlayers := [],
                pendingMatches := m.pendingMatches },
        world := w.afterGroup a b p } := by
  have hc : [a, b, p].contains p = true := by simp
  simp only [Matchmaker.AddPlayer, Matchmaker.formMatches, h, List.cons_append, List.nil_append,
    formLoop_step, hc, if_true]
  rw [formLoop_short _ _ (by simp)]

/-! ## Sequences of `AddPlayer` calls -/

theorem addPlayers_nil (m : Matchmaker) (w : World) : addPlayers m w [] = ([], m, w) := rfl

theorem addPlayers_cons (m : Matchmaker) (w : World) (p : String) (ps : List String) :
    addPlayers m w (p :: ps) =
      (m.AddPlayer w p :: (addPlayers (m.AddPlayer w p).mm (m.AddPlayer w p).world ps).1,
        (addPlayers (m.AddPlayer w p).mm (m.AddPlayer w p).world ps).2) := rfl

/-- Three calls on an empty queue: the third returns the complete match of the three ids
and leaves the queue empty again. -/
theorem addPlayers_three (m : Matchmaker) (w : World) (a b c : String) (rest : List String)
    (h : m.waitingPlayers = []) :
    ∃ r1 r2 r3 : Ret,
      addPlayers m w (a :: b :: c :: rest) =
        (r1 :: r2 :: r3 :: (addPlayers r3.mm r3.world rest).1,
          (addPlayers r3.mm r3.world rest).2) ∧
      r3.result = some (groupOf w.afterNew.afterNew a b c) ∧ r3.err = none ∧
      r3.mm.waitingPlayers = [] := by
  have h1 := AddPlayer_short m w a (by simp [h])
  have q1 : (m.AddPlayer w a).mm.waitingPlayers = [a] := by rw [h1]; simp [h]
  have h2 := AddPlayer_short (m.AddPlayer w a).mm (m.AddPlayer w a).world b (by simp [q1])
  have q2 : ((m.AddPlayer w a).mm.AddPlayer (m.AddPlayer w a).world b).mm.waitingPlayers
      = [a, b] := by rw [h2]; simp [q1]
  have h3 := AddPlayer_two _ ((m.AddPlayer w a).mm.AddPlayer (m.AddPlayer w a).world b).world
    a b c q2
  refine ⟨m.AddPlayer w a, (m.AddPlayer w a).mm.AddPlayer (m.AddPlayer w a).world b,
    ((m.AddPlayer w a).mm.AddPlayer (m.AddPlayer w a).world b).mm.AddPlayer
      ((m.AddPlayer w a).mm.AddPlayer (m.AddPlayer w a).world b).world c, rfl, ?_, ?_, ?_⟩
  · rw [h3, h2, h1]
  · rw [h3]
  · rw [h3]

theorem addPlayers_third_result (j : Nat) :
    ∀ (m : Matchmaker) (w : World) (ps : List String),
      m.waitingPlayers = [] → 3 * j + 3 ≤ ps.length →
      ∃ (r : Ret) (mt : Match) (a b c : String),
        (addPlayers m w ps).1[3 * j + 2]? = some r ∧ r.result = some mt ∧ r.err = none ∧
        ps[3 * j]? = some a ∧ ps[3 * j + 1]? = some b ∧ ps[3 * j + 2]? = some c ∧
        mt.Players = [a, b, c] ∧ mt.Status = StatusReady := by
  induction j with
  | zero =>
    intro m w ps hq hlen
    match ps, hlen with
    | a :: b :: c :: rest, _ =>
      obtain ⟨r1, r2, r3, hrun, hres, herr, _⟩ := addPlayers_three m w a b c rest hq
      exact ⟨r3, _, a, b, c, by rw [hrun]; simp, hres, herr, by simp, by simp, by simp,
        rfl, rfl⟩
  | succ j ih =>
    intro m w ps hq hlen
    match ps, hlen with
    | a :: b :: c :: rest, hlen =>
      obtain ⟨r1, r2, r3, hrun, _, _, hq3⟩ := addPlayers_three m w a b c rest hq
      have hlen2 : 3 * j + 3 ≤ rest.length := by simp at hlen; omega
      obtain ⟨r, mt, x, y, z, hr, hres, herr, hx, hy, hz, hp, hs⟩ :=
        ih r3.mm r3.world rest hq3 hlen2
      have e0 : 3 * (j + 1) = (3 * j) + 1 + 1 + 1 := by ring
      have e1 : 3 * (j + 1) + 1 = (3 * j + 1) + 1 + 1 + 1 := by ring
      have e2 : 3 * (j + 1) + 2 = (3 * j + 2) + 1 + 1 + 1 := by ring
      refine ⟨r, mt, x, y, z, ?_, hres, herr, ?_, ?_, ?_, hp, hs⟩
      · rw [hrun, e2]; simpa only [List.getElem?_cons_succ] using hr
      · rw [e0]; simpa only [List.getElem?_cons_succ] using hx
      · rw [e1]; simpa only [List.getElem?_cons_succ] using hy
      · rw [e2]; simpa only [List.getElem?_cons_succ] using hz

/-! ## The claims -/

/-- C1: on a fresh matchmaker every call whose number `k` is a multiple of 3 returns, with
a nil error, a match whose players are the ids of calls `k-2`, `k-1`, `k` in that order
and whose status is `"ready"` (so `IsReady` is true); the ids are arbitrary. -/
theorem C1_every_third_call_returns_ready_group (ids : Nat → String) (clock : Nat → Int)
    (ps : List String) (k : Nat) (hk0 : 0 < k) (hk : k ≤ ps.length) (h3 : 3 ∣ k) :
    ∃ (r : Ret) (mt : Match) (a b c : String),
      (addPlayers NewMatchmaker (World.start ids clock) ps).1[k - 1]? = some r ∧
      r.result = some mt ∧ r.err = none ∧
      ps[k - 3]? = some a ∧ ps[k - 2]? = some b ∧ ps[k - 1]? = some c ∧
      mt.Players = [a, b, c] ∧ mt.Status = "ready" ∧ mt.IsReady = true := by
  obtain ⟨t, rfl⟩ := h3
  obtain ⟨j, rfl⟩ : ∃ j, t = j + 1 := ⟨t - 1, by omega⟩
  obtain ⟨r, mt, a, b, c, hr, hres, herr, ha, hb, hc, hp, hs⟩ :=
    addPlayers_third_result j NewMatchmaker (World.start ids clock) ps rfl (by omega)
  have e1 : 3 * (j + 1) - 1 = 3 * j + 2 := by omega
  have e2 : 3 * (j + 1) - 2 = 3 * j + 1 := by omega
  have e3 : 3 * (j + 1) - 3 = 3 * j := by omega
  refine ⟨r, mt, a, b, c, ?_, hres, herr, ?_, ?_, ?_, hp, hs, ?_⟩
  · rw [e1]; exact hr
  · rw [e3]; exact ha
  · rw [e2]; exact hb
  · rw [e1]; exact hc
  · simp [Match.IsReady, hs]

/-- C1 at `AddPlayer("p1")`, `AddPlayer("p2")`, `AddPlayer("p3")`, third call. -/
theorem C1_every_third_call_returns_ready_group_witness :
    0 < 3 ∧ 3 ≤ ["p1", "p2", "p3"].length ∧ 3 ∣ 3 ∧
    ∃ (r : Ret) (mt : Match) (a b c : String),
      (addPlayers NewMatchmaker (World.start testIds testClock) ["p1", "p2", "p3"]).1[3 - 1]?
        = some r ∧
      r.result = some mt ∧ r.err = none ∧
      ["p1", "p2", "p3"][3 - 3]? = some a ∧ ["p1", "p2", "p3"][3 - 2]? = some b ∧
      ["p1", "p2", "p3"][3 - 1]? = some c ∧
      mt.Players = [a, b, c] ∧ mt.Status = "ready" ∧ mt.IsReady = true :=
  ⟨by decide, by decide, by decide,
    C1_every_third_call_returns_ready_group testIds testClock ["p1", "p2", "p3"] 3
      (by decide) (by decide) (by decide)⟩

/-- C2: when fewer than 2 ids are queued, `AddPlayer(playerID)` forms no complete match
(`matchStore` and the history of formed matches are unchanged) and returns, with a nil
error, the match `NewMatch(playerID)` has just created: players `[playerID]`, status
`"waiting"`, stored in `pendingMatches` under its own id. -/
theorem C2_short_queue_returns_new_pending (m : Matchmaker) (w : World) (playerID : String)
    (h : m.waitingPlayers.length < 2) :
    (m.AddPlayer w playerID).mm.matchStore = m.matchStore ∧
    (m.AddPlayer w playerID).world.formed = w.formed ∧
    (m.AddPlayer w playerID).err = none ∧
    ∃ mt : Match, (m.AddPlayer w playerID).result = some mt ∧ mt = (NewMatch w playerID).1 ∧
      mt.Players = [playerID] ∧ mt.Status = "waiting" ∧
      (m.AddPlayer w playerID).mm.pendingMatches.get mt.ID = some mt := by
  rw [AddPlayer_short m w playerID h]
  refine ⟨rfl, rfl, rfl, pendingOf w playerID, rfl, rfl, rfl, rfl, ?_⟩
  exact Store.get_set_self _ _ _

/-- C2 at `AddPlayer("p1")` on a fresh matchmaker. -/
theorem C2_short_queue_returns_new_pending_witness :
    NewMatchmaker.waitingPlayers.length < 2 ∧
    ∃ mt : Match, (NewMatchmaker.AddPlayer testWorld "p1").result = some mt ∧
      mt = (NewMatch testWorld "p1").1 ∧ mt.Players = ["p1"] ∧ mt.Status = "waiting" ∧
      (NewMatchmaker.AddPlayer testWorld "p1").mm.pendingMatches.get mt.ID = some mt :=
  ⟨by decide, (C2_short_queue_returns_new_pending NewMatchmaker testWorld "p1"
    (by decide)).2.2.2⟩

/-! ## Invariants of the two maps -/

theorem Reachable.runCalls {m : Matchmaker} {w : World} (h : Reachable m w) (cs : List Call) :
    Reachable (MatchMaker.runCalls m w cs).2.1 (MatchMaker.runCalls m w cs).2.2 := by
  induction cs generalizing m w with
  | nil => exact h
  | cons c cs ih => exact ih (Reachable.call c h)

theorem Reachable.addPlayers {m : Matchmaker} {w : World} (h : Reachable m w)
    (ps : List String) :
    Reachable (MatchMaker.addPlayers m w ps).2.1 (MatchMaker.addPlayers m w ps).2.2 :=
  h.runCalls _

theorem GetMatch_mm (m : Matchmaker) (w : World) (k : String) : (m.GetMatch w k).mm = m := by
  unfold Matchmaker.GetMatch
  split
  · rfl
  · split <;> rfl

theorem GetMatch_world (m : Matchmaker) (w : World) (k : String) :
    (m.GetMatch w k).world = w := by
  unfold Matchmaker.GetMatch
  split
  · rfl
  · split <;> rfl

/-- The loop puts only complete matches into `matchStore`. -/
theorem formLoop_values (P : Match → Prop) (hP : ∀ w a b c, P (groupOf w a b c))
    (pid : String) (q : List String) :
    ∀ (s : Store) (w : World) (pm : Option Match), (∀ v ∈ s.values, P v) →
      ∀ v ∈ (formLoop pid q s w pm).matchStore.values, P v := by
  induction q using list_threes with
  | short q hq =>
    intro s w pm hs
    rw [formLoop_short pid q hq]
    exact hs
  | step a b c rest ih =>
    intro s w pm hs
    rw [formLoop_step]
    apply ih
    intro v hv
    rcases Store.mem_values_set _ _ _ _ hv with rfl | hv
    · exact hP w a b c
    · exact hs v hv

theorem AddPlayer_matchStore (m : Matchmaker) (w : World) (p : String) :
    (m.AddPlayer w p).mm.matchStore =
      (formLoop p (m.waitingPlayers ++ [p]) m.matchStore w none).matchStore := by
  simp only [Matchmaker.AddPlayer, Matchmaker.formMatches]
  split <;> rfl

theorem AddPlayer_waitingPlayers (m : Matchmaker) (w : World) (p : String) :
    (m.AddPlayer w p).mm.waitingPlayers =
      (formLoop p (m.waitingPlayers ++ [p]) m.matchStore w none).waitingPlayers := by
  simp only [Matchmaker.AddPlayer, Matchmaker.formMatches]
  split <;> rfl

theorem AddPlayer_pendingMatches (m : Matchmaker) (w : World) (p : String) :
    (m.AddPlayer w p).mm.pendingMatches = m.pendingMatches ∨
    ∃ w2 : World, (m.AddPlayer w p).mm.pendingMatches =
      m.pendingMatches.set (pendingOf w2 p).ID (pendingOf w2 p) := by
  simp only [Matchmaker.AddPlayer, Matchmaker.formMatches]
  split
  · exact Or.inl rfl
  · exact Or.inr ⟨_, rfl⟩

theorem AddPlayer_matchStore_values (P : Match → Prop) (hP : ∀ w a b c, P (groupOf w a b c))
    (m : Matchmaker) (w : World) (p : String) (h : ∀ v ∈ m.matchStore.values, P v) :
    ∀ v ∈ (m.AddPlayer w p).mm.matchStore.values, P v := by
  rw [AddPlayer_matchStore]
  exact formLoop_values P hP p _ _ _ _ h

theorem AddPlayer_pendingMatches_values (P : Match → Prop) (hP : ∀ w a, P (pendingOf w a))
    (m : Matchmaker) (w : World) (p : String) (h : ∀ v ∈ m.pendingMatches.values, P v) :
    ∀ v ∈ (m.AddPlayer w p).mm.pendingMatches.values, P v := by
  rcases AddPlayer_pendingMatches m w p with e | ⟨w2, e⟩
  · rw [e]; exact h
  · rw [e]
    intro v hv
    rcases Store.mem_values_set _ _ _ _ hv with rfl | hv
    · exact hP w2 p
    · exact h v hv

theorem reachable_matchStore_values (P : Match → Prop) (hP : ∀ w a b c, P (groupOf w a b c))
    {m : Matchmaker} {w : World} (h : Reachable m w) : ∀ v ∈ m.matchStore.values, P v := by
  induction h with
  | fresh ids clock => intro v hv; simp [NewMatchmaker, Store.empty, Store.values] at hv
  | call c _ ih =>
    cases c with
    | addPlayer p => exact AddPlayer_matchStore_values P hP _ _ p ih
    | getMatch k => simpa only [Matchmaker.call, GetMatch_mm] using ih

theorem reachable_pendingMatches_values (P : Match → Prop) (hP : ∀ w a, P (pendingOf w a))
    {m : Matchmaker} {w : World} (h : Reachable m w) :
    ∀ v ∈ m.pendingMatches.values, P v := by
  induction h with
  | fresh ids clock => intro v hv; simp [NewMatchmaker, Store.empty, Store.values] at hv
  | call c _ ih =>
    cases c with
    | addPlayer p => exact AddPlayer_pendingMatches_values P hP _ _ p ih
    | getMatch k => simpa only [Matchmaker.call, GetMatch_mm] using ih

/-- C4: in every state reachable from a fresh matchmaker by `AddPlayer` and `GetMatch`
calls, every match stored in `matchStore` has exactly 3 players and status `"ready"`. -/
theorem C4_matchStore_entries_complete (m : Matchmaker) (w : World) (h : Reachable m w)
    (mt : Match) (hmt : mt ∈ m.matchStore.values) :
    mt.Players.length = 3 ∧ mt.Status = "ready" :=
  reachable_matchStore_values (fun v => v.Players.length = 3 ∧ v.Status = "ready")
    (fun _ _ _ _ => ⟨rfl, rfl⟩) h mt hmt

/-- C4 at the state after `AddPlayer` of `p1`, `p2`, `p3`, a `GetMatch` and `AddPlayer`
of `p4` (`testCalls`), for the match of the first three. -/
theorem C4_matchStore_entries_complete_witness :
    Reachable
      (runCalls NewMatchmaker testWorld testCalls).2.1
      (runCalls NewMatchmaker testWorld testCalls).2.2 ∧
    groupOf testWorld.afterNew.afterNew "p1" "p2" "p3" ∈
      (runCalls NewMatchmaker testWorld testCalls).2.1.matchStore.values ∧
    (groupOf testWorld.afterNew.afterNew "p1" "p2" "p3").Players.length = 3 ∧
    (groupOf testWorld.afterNew.afterNew "p1" "p2" "p3").Status = "ready" :=
  ⟨(Reachable.fresh testIds testClock).runCalls testCalls, by decide,
    C4_matchStore_entries_complete _ _
      ((Reachable.fresh testIds testClock).runCalls testCalls)
      (groupOf testWorld.afterNew.afterNew "p1" "p2" "p3") (by decide)⟩

/-- C5: in every state reachable from a fresh matchmaker by `AddPlayer` and `GetMatch`
calls, every match stored in `pendingMatches` has exactly 1 player and status
`"waiting"`; none has 2 players. -/
theorem C5_pendingMatches_entries_single (m : Matchmaker) (w : World) (h : Reachable m w)
    (mt : Match) (hmt : mt ∈ m.pendingMatches.values) :
    mt.Players.length = 1 ∧ mt.Status = "waiting" ∧ mt.Players.length ≠ 2 :=
  reachable_pendingMatches_values
    (fun v => v.Players.length = 1 ∧ v.Status = "waiting" ∧ v.Players.length ≠ 2)
    (fun _ _ => ⟨rfl, rfl, by simp [pendingOf]⟩) h mt hmt

/-- C5 at the state after `AddPlayer` of `p1`, `p2`, `p3`, a `GetMatch` and `AddPlayer`
of `p4` (`testCalls`), for the pending match of `p1`, whose player sits in a complete match by then. -/
theorem C5_pendingMatches_entries_single_witness :
    Reachable
      (runCalls NewMatchmaker testWorld testCalls).2.1
      (runCalls NewMatchmaker testWorld testCalls).2.2 ∧
    pendingOf testWorld "p1" ∈
      (runCalls NewMatchmaker testWorld testCalls).2.1.pendingMatches.values ∧
    (pendingOf testWorld "p1").Players.length = 1 ∧
    (pendingOf testWorld "p1").Status = "waiting" ∧
    (pendingOf testWorld "p1").Players.length ≠ 2 :=
  ⟨(Reachable.fresh testIds testClock).runCalls testCalls, by decide,
    C5_pendingMatches_entries_single _ _
      ((Reachable.fresh testIds testClock).runCalls testCalls)
      (pendingOf testWorld "p1") (by decide)⟩

/-! ## Lookup -/

/-- C6: `GetMatch(matchID)` fails with `ErrMatchNotFound` (and a nil match) exactly when
`matchID` is a key of neither map; when it is a key of `matchStore` the call succeeds
with the `matchStore` entry, whatever `pendingMatches` holds; when it is a key of
`pendingMatches` only, the call succeeds with the `pendingMatches` entry. -/
theorem C6_GetMatch_first_hit (m : Matchmaker) (w : World) (matchID : String) :
    ((m.GetMatch w matchID).err = some Error.ErrMatchNotFound ↔
      (matchID ∉ m.matchStore.keys ∧ matchID ∉ m.pendingMatches.keys)) ∧
    ((m.GetMatch w matchID).err = some Error.ErrMatchNotFound →
      (m.GetMatch w matchID).result = none) ∧
    (matchID ∈ m.matchStore.keys →
      (m.GetMatch w matchID).err = none ∧
      ∃ mt, m.matchStore.get matchID = some mt ∧ (m.GetMatch w matchID).result = some mt) ∧
    (matchID ∉ m.matchStore.keys → matchID ∈ m.pendingMatches.keys →
      (m.GetMatch w matchID).err = none ∧
      ∃ mt, m.pendingMatches.get matchID = some mt ∧
        (m.GetMatch w matchID).result = some mt) := by
  rw [← Store.get_eq_none_iff, ← Store.get_eq_none_iff, Store.mem_keys_iff,
    Store.mem_keys_iff]
  unfold Matchmaker.GetMatch
  cases h1 : m.matchStore.get matchID with
  | some mt => simp
  | none =>
    cases h2 : m.pendingMatches.get matchID with
    | some mt => simp
    | none => simp

/-- C6 at `GetMatch("nonexistent")` on a fresh matchmaker: it fails with
`ErrMatchNotFound`. -/
theorem C6_GetMatch_first_hit_witness :
    "nonexistent" ∉ NewMatchmaker.matchStore.keys ∧
    "nonexistent" ∉ NewMatchmaker.pendingMatches.keys ∧
    (NewMatchmaker.GetMatch testWorld "nonexistent").err = some Error.ErrMatchNotFound ∧
    (NewMatchmaker.GetMatch testWorld "nonexistent").result = none :=
  have hk : "nonexistent" ∉ NewMatchmaker.matchStore.keys ∧
      "nonexistent" ∉ NewMatchmaker.pendingMatches.keys := ⟨by decide, by decide⟩
  have he := (C6_GetMatch_first_hit NewMatchmaker testWorld "nonexistent").1.2 hk
  ⟨hk.1, hk.2, he, (C6_GetMatch_first_hit NewMatchmaker testWorld "nonexistent").2.1 he⟩

/-- C8: `GetMatch` leaves `waitingPlayers`, `matchStore` and `pendingMatches` (and the
world) as they were, and a second `GetMatch` with the same id right after the first
returns the same match and the same error. -/
theorem C8_GetMatch_read_only_idempotent (m : Matchmaker) (w : World) (matchID : String) :
    (m.GetMatch w matchID).mm.waitingPlayers = m.waitingPlayers ∧
    (m.GetMatch w matchID).mm.matchStore = m.matchStore ∧
    (m.GetMatch w matchID).mm.pendingMatches = m.pendingMatches ∧
    (m.GetMatch w matchID).world.idsUsed = w.idsUsed ∧
    (m.GetMatch w matchID).world.clockUsed = w.clockUsed ∧
    ((m.GetMatch w matchID).mm.GetMatch (m.GetMatch w matchID).world matchID).result =
      (m.GetMatch w matchID).result ∧
    ((m.GetMatch w matchID).mm.GetMatch (m.GetMatch w matchID).world matchID).err =
      (m.GetMatch w matchID).err := by
  rw [GetMatch_mm, GetMatch_world]
  exact ⟨rfl, rfl, rfl, rfl, rfl, rfl, rfl⟩

/-! ## What `AddPlayer` returns, in any state -/

theorem formLoop_playerMatch (pid : String) (q : List String) :
    ∀ (s : Store) (w : World) (pm : Option Match),
      (∀ mt, pm = some mt → pid ∈ mt.Players) →
      ∀ mt, (formLoop pid q s w pm).playerMatch = some mt → pid ∈ mt.Players := by
  induction q using list_threes with
  | short q hq =>
    intro s w pm hpm mt
    rw [formLoop_short pid q hq]
    exact hpm mt
  | step a b c rest ih =>
    intro s w pm hpm mt
    rw [formLoop_step]
    apply ih
    intro mt2 h2
    by_cases hc : [a, b, c].contains pid = true
    · rw [if_pos hc] at h2
      cases h2
      simpa [groupOf] using hc
    · rw [if_neg hc] at h2
      exact hpm mt2 h2

/-- C9: in every state and for every `playerID`, the empty string and an id that is
already queued included, `AddPlayer` returns a nil error and a non-nil match whose players
contain `playerID`. -/
theorem C9_AddPlayer_never_fails (m : Matchmaker) (w : World) (playerID : String) :
    (m.AddPlayer w playerID).err = none ∧
    ∃ mt : Match, (m.AddPlayer w playerID).result = some mt ∧ playerID ∈ mt.Players := by
  refine ⟨rfl, ?_⟩
  have hl := formLoop_playerMatch playerID (m.waitingPlayers ++ [playerID]) m.matchStore w none
    (by simp)
  simp only [Matchmaker.AddPlayer, Matchmaker.formMatches]
  split
  · next pm hpm => exact ⟨pm, rfl, hl pm hpm⟩
  · exact ⟨_, rfl, by simp [NewMatch]⟩

/-! ## First in, first out -/

theorem playersOf_append (l : List Match) (mt : Match) :
    playersOf (l ++ [mt]) = playersOf l ++ mt.Players := by
  induction l with
  | nil => simp [playersOf]
  | cons x l ih => simp [playersOf, ih]

theorem formLoop_formed_queue (pid : String) (q : List String) :
    ∀ (s : Store) (w : World) (pm : Option Match),
      playersOf (formLoop pid q s w pm).world.formed ++ (formLoop pid q s w pm).waitingPlayers
        = playersOf w.formed ++ q := by
  induction q using list_threes with
  | short q hq =>
    intro s w pm
    rw [formLoop_short pid q hq]
  | step a b c rest ih =>
    intro s w pm
    rw [formLoop_step, ih]
    simp [World.afterGroup, playersOf_append, groupOf]

theorem formLoop_formed_complete (pid : String) (q : List String) :
    ∀ (s : Store) (w : World) (pm : Option Match),
      (∀ mt ∈ w.formed, mt.Players.length = 3 ∧ mt.IsReady = true) →
      ∀ mt ∈ (formLoop pid q s w pm).world.formed,
        mt.Players.length = 3 ∧ mt.IsReady = true := by
  induction q using list_threes with
  | short q hq =>
    intro s w pm h
    rw [formLoop_short pid q hq]
    exact h
  | step a b c rest ih =>
    intro s w pm h
    rw [formLoop_step]
    apply ih
    intro mt hmt
    simp only [World.afterGroup, List.mem_append, List.mem_singleton] at hmt
    rcases hmt with hmt | rfl
    · exact h mt hmt
    · exact ⟨rfl, rfl⟩

theorem AddPlayer_formed (m : Matchmaker) (w : World) (p : String) :
    (m.AddPlayer w p).world.formed =
      (formLoop p (m.waitingPlayers ++ [p]) m.matchStore w none).world.formed := by
  simp only [Matchmaker.AddPlayer, Matchmaker.formMatches]
  split <;> rfl

theorem addPlayers_formed_queue (ps : List String) :
    ∀ (m : Matchmaker) (w : World),
      playersOf (addPlayers m w ps).2.2.formed ++ (addPlayers m w ps).2.1.waitingPlayers
        = playersOf w.formed ++ m.waitingPlayers ++ ps := by
  induction ps with
  | nil => intro m w; simp [addPlayers_nil]
  | cons p ps ih =>
    intro m w
    rw [addPlayers_cons]
    simp only []
    rw [ih, AddPlayer_formed, AddPlayer_waitingPlayers, formLoop_formed_queue]
    simp

theorem addPlayers_formed_complete (ps : List String) :
    ∀ (m : Matchmaker) (w : World),
      (∀ mt ∈ w.formed, mt.Players.length = 3 ∧ mt.IsReady = true) →
      ∀ mt ∈ (addPlayers m w ps).2.2.formed, mt.Players.length = 3 ∧ mt.IsReady = true := by
  induction ps with
  | nil => intro m w h; simpa [addPlayers_nil] using h
  | cons p ps ih =>
    intro m w h
    rw [addPlayers_cons]
    apply ih
    rw [AddPlayer_formed]
    exact formLoop_formed_complete p _ _ _ _ h

/-- C10: after `AddPlayer` of `p_1 .. p_N` on a fresh matchmaker, the player lists of the
complete matches, in the order the matches were created, followed by the final
`waitingPlayers`, are `p_1 .. p_N` exactly; every one of these matches has 3 players and
is ready. -/
theorem C10_strict_fifo (ids : Nat → String) (clock : Nat → Int) (ps : List String) :
    playersOf (addPlayers NewMatchmaker (World.start ids clock) ps).2.2.formed ++
      (addPlayers NewMatchmaker (World.start ids clock) ps).2.1.waitingPlayers = ps ∧
    ∀ mt ∈ (addPlayers NewMatchmaker (World.start ids clock) ps).2.2.formed,
      mt.Players.length = 3 ∧ mt.IsReady = true := by
  constructor
  · rw [addPlayers_formed_queue]
    simp [World.start, NewMatchmaker, playersOf]
  · apply addPlayers_formed_complete
    intro mt hmt
    simp [World.start] at hmt

/-- C10 at `p1 .. p4`: one complete match `[p1, p2, p3]`, then `p4` still queued. -/
theorem C10_strict_fifo_witness :
    (addPlayers NewMatchmaker (World.start testIds testClock)
      ["p1", "p2", "p3", "p4"]).2.2.formed.map Match.Players = [["p1", "p2", "p3"]] ∧
    (addPlayers NewMatchmaker (World.start testIds testClock)
      ["p1", "p2", "p3", "p4"]).2.1.waitingPlayers = ["p4"] ∧
    playersOf (addPlayers NewMatchmaker (World.start testIds testClock)
      ["p1", "p2", "p3", "p4"]).2.2.formed ++
      (addPlayers NewMatchmaker (World.start testIds testClock)
        ["p1", "p2", "p3", "p4"]).2.1.waitingPlayers = ["p1", "p2", "p3", "p4"] :=
  ⟨by decide, by decide,
    (C10_strict_fifo testIds testClock ["p1", "p2", "p3", "p4"]).1⟩

/-! ## States with fewer than three queued ids -/

theorem formLoop_waiting_lt (pid : String) (q : List String) :
    ∀ (s : Store) (w : World) (pm : Option Match),
      (formLoop pid q s w pm).waitingPlayers.length < 3 := by
  induction q using list_threes with
  | short q hq => intro s w pm; rw [formLoop_short pid q hq]; exact hq
  | step a b c rest ih => intro s w pm; rw [formLoop_step]; exact ih _ _ _

theorem AddPlayer_waiting_lt (m : Matchmaker) (w : World) (p : String) :
    (m.AddPlayer w p).mm.waitingPlayers.length < 3 := by
  rw [AddPlayer_waitingPlayers]
  exact formLoop_waiting_lt _ _ _ _ _

theorem reachable_waiting_lt {m : Matchmaker} {w : World} (h : Reachable m w) :
    m.waitingPlayers.length < 3 := by
  induction h with
  | fresh ids clock => simp [NewMatchmaker]
  | call c _ ih =>
    cases c with
    | addPlayer p => exact AddPlayer_waiting_lt _ _ p
    | getMatch k => simpa only [Matchmaker.call, GetMatch_mm] using ih

/-- With fewer than three ids queued a call either queues its id and leaves a pending
match, or completes the match of the two queued ids and its own. -/
theorem AddPlayer_cases (m : Matchmaker) (w : World) (p : String)
    (h : m.waitingPlayers.length < 3) :
    (m.waitingPlayers.length < 2 ∧
      m.AddPlayer w p =
        { result := some (pendingOf w p), err := none,
          mm := { matchStore := m.matchStore, waitingPlayers := m.waitingPlayers ++ [p],
                  pendingMatches := m.pendingMatches.set (w.ids w.idsUsed) (pendingOf w p) },
          world := w.afterNew }) ∨
    (∃ a b, m.waitingPlayers = [a, b] ∧
      m.AddPlayer w p =
        { result := some (groupOf w a b p), err := none,
          mm := { matchStore := m.matchStore.set (w.ids w.idsUsed) (groupOf w a b p),
                  waitingPlayers := [],
                  pendingMatches := m.pendingMatches },
          world := w.afterGroup a b p }) := by
  by_cases h2 : m.waitingPlayers.length < 2
  · exact Or.inl ⟨h2, AddPlayer_short m w p h2⟩
  · right
    match hq : m.waitingPlayers, h, h2 with
    | [a, b], _, _ => exact ⟨a, b, rfl, AddPlayer_two m w a b p hq⟩
    | [], _, h2 => simp at h2
    | [_], _, h2 => simp at h2
    | _ :: _ :: _ :: _, h, _ => simp at h; omega

/-! ## Orphaned pending matches -/

/-- A pending entry whose id is not a key of `matchStore` survives further `AddPlayer`
calls that generate other ids, and the id stays out of `matchStore`. -/
theorem addPlayers_keeps_pending (ps : List String) :
    ∀ (m : Matchmaker) (w : World) (k : String) (M : Match),
      m.waitingPlayers.length < 3 →
      m.pendingMatches.get k = some M → m.matchStore.get k = none →
      (∀ i, i < ps.length → w.ids (w.idsUsed + i) ≠ k) →
      (addPlayers m w ps).2.1.pendingMatches.get k = some M ∧
      (addPlayers m w ps).2.1.matchStore.get k = none := by
  induction ps with
  | nil => intro m w k M _ hp hm _; exact ⟨hp, hm⟩
  | cons p ps ih =>
    intro m w k M hq hp hm hfresh
    rw [addPlayers_cons]
    have h0 : w.ids w.idsUsed ≠ k := by simpa using hfresh 0 (by simp)
    have hnext : ∀ i, i < ps.length → w.ids (w.idsUsed + 1 + i) ≠ k := by
      intro i hi
      have := hfresh (i + 1) (by simpa using hi)
      rwa [show w.idsUsed + (i + 1) = w.idsUsed + 1 + i by omega] at this
    rcases AddPlayer_cases m w p hq with ⟨_, e⟩ | ⟨a, b, _, e⟩
    · apply ih
      · exact AddPlayer_waiting_lt m w p
      · rw [e]; simp only []
        rw [Store.get_set_of_ne _ _ _ _ (Ne.symm h0)]; exact hp
      · rw [e]; exact hm
      · rw [e]; exact hnext
    · apply ih
      · exact AddPlayer_waiting_lt m w p
      · rw [e]; exact hp
      · rw [e]; simp only []
        rw [Store.get_set_of_ne _ _ _ _ (Ne.symm h0)]; exact hm
      · rw [e]; exact hnext

/-- C7 fails as stated: when the generator answers the same id `collidingId` three times,
the state after `AddPlayer` of `p1`, `p2`, `p3` is reachable and has a pending entry under
that id with players `[p2]`, status `"waiting"`; with no further call at all,
`GetMatch(collidingId)` returns the complete match `[p1, p2, p3]` of `matchStore`, not the
pending entry. -/
theorem C7_counterexample :
    Reachable collidedState.1 collidedState.2 ∧
    collidedState.1.pendingMatches.get collidingId
      = some (pendingOf sameIdWorld.afterNew "p2") ∧
    (pendingOf sameIdWorld.afterNew "p2").Players = ["p2"] ∧
    (pendingOf sameIdWorld.afterNew "p2").Status = "waiting" ∧
    (∀ i, i < ([] : List String).length →
      collidedState.2.ids (collidedState.2.idsUsed + i) ∉
        collidedState.1.matchStore.keys ++ collidedState.1.pendingMatches.keys) ∧
    (((addPlayers collidedState.1 collidedState.2 []).2.1.GetMatch
        (addPlayers collidedState.1 collidedState.2 []).2.2 collidingId).result
      ≠ some (pendingOf sameIdWorld.afterNew "p2")) ∧
    (((addPlayers collidedState.1 collidedState.2 []).2.1.GetMatch
        (addPlayers collidedState.1 collidedState.2 []).2.2 collidingId).result.map
          Match.Players
      = some ["p1", "p2", "p3"]) :=
  ⟨(Reachable.fresh (fun _ => collidingId) testClock).addPlayers ["p1", "p2", "p3"],
    by decide, by decide, by decide, by intro i hi; simp at hi, by decide, by decide⟩

/-- C7, amended: in a reachable state, a pending entry `M` under an id that is not also a
key of `matchStore` is what `GetMatch(id)` returns after any further `AddPlayer` calls
whose generated ids differ from all existing keys; `M` has one player and status
`"waiting"`, whatever has happened to that player in the queue. -/
theorem C7_pending_match_orphaned (m : Matchmaker) (w : World) (h : Reachable m w)
    (id : String) (M : Match) (hM : m.pendingMatches.get id = some M)
    (hNot : id ∉ m.matchStore.keys) (ps : List String)
    (hfresh : ∀ i, i < ps.length →
      w.ids (w.idsUsed + i) ∉ m.matchStore.keys ++ m.pendingMatches.keys) :
    ((addPlayers m w ps).2.1.GetMatch (addPlayers m w ps).2.2 id).result = some M ∧
    ((addPlayers m w ps).2.1.GetMatch (addPlayers m w ps).2.2 id).err = none ∧
    (∃ p, M.Players = [p]) ∧ M.Status = "waiting" := by
  have hkey : id ∈ m.pendingMatches.keys := (Store.mem_keys_iff _ _).2 ⟨M, hM⟩
  have hne : ∀ i, i < ps.length → w.ids (w.idsUsed + i) ≠ id := by
    intro i hi e
    exact hfresh i hi (e ▸ List.mem_append_right _ hkey)
  obtain ⟨hp, hm⟩ := addPlayers_keeps_pending ps m w id M (reachable_waiting_lt h) hM
    ((Store.get_eq_none_iff _ _).2 hNot) hne
  have hval : M ∈ m.pendingMatches.values := Store.mem_values_of_get _ _ _ hM
  have hshape := reachable_pendingMatches_values
    (fun v => v.Players.length = 1 ∧ v.Status = "waiting") (fun _ _ => ⟨rfl, rfl⟩) h M hval
  refine ⟨?_, ?_, ?_, hshape.2⟩
  · simp [Matchmaker.GetMatch, hp, hm]
  · simp [Matchmaker.GetMatch, hp, hm]
  · exact List.length_eq_one.1 hshape.1

/-- C7 at the scenario of the specification: after `AddPlayer` of `p1`, `p2`, `p3` with
distinct ids, `GetMatch` on the id the first call returned (`m0`) still returns players
`[p1]`, status `"waiting"`, which is not the ready match the third call returned. -/
theorem C7_pending_match_orphaned_witness :
    Reachable joinedOnce.1 joinedOnce.2 ∧
    joinedOnce.1.pendingMatches.get "m0" = some (pendingOf testWorld "p1") ∧
    "m0" ∉ joinedOnce.1.matchStore.keys ∧
    (∀ i, i < ["p2", "p3"].length →
      joinedOnce.2.ids (joinedOnce.2.idsUsed + i) ∉
        joinedOnce.1.matchStore.keys ++ joinedOnce.1.pendingMatches.keys) ∧
    (((addPlayers joinedOnce.1 joinedOnce.2 ["p2", "p3"]).2.1.GetMatch
        (addPlayers joinedOnce.1 joinedOnce.2 ["p2", "p3"]).2.2 "m0").result
      = some (pendingOf testWorld "p1") ∧
     ((addPlayers joinedOnce.1 joinedOnce.2 ["p2", "p3"]).2.1.GetMatch
        (addPlayers joinedOnce.1 joinedOnce.2 ["p2", "p3"]).2.2 "m0").err = none ∧
     (∃ p, (pendingOf testWorld "p1").Players = [p]) ∧
     (pendingOf testWorld "p1").Status = "waiting") ∧
    (pendingOf testWorld "p1").Players = ["p1"] ∧
    ((addPlayers joinedOnce.1 joinedOnce.2 ["p2", "p3"]).1.map
        (fun r => r.result.map Match.Players)) = [some ["p2"], some ["p1", "p2", "p3"]] :=
  ⟨(Reachable.fresh testIds testClock).addPlayers ["p1"], by decide, by decide, by decide,
    C7_pending_match_orphaned joinedOnce.1 joinedOnce.2
      ((Reachable.fresh testIds testClock).addPlayers ["p1"]) "m0" (pendingOf testWorld "p1")
      (by decide) (by decide) ["p2", "p3"] (by decide),
    by decide, by decide⟩

/-! ## Counting players over both maps -/

theorem Store.totalPlayers_set_fresh (s : Store) (k : String) (v : Match) (h : k ∉ s.keys) :
    (s.set k v).totalPlayers = s.totalPlayers + v.Players.length := by
  simp only [Store.totalPlayers, Store.values, Store.set_of_not_mem s k v h, List.map_cons,
    List.sum_cons]
  omega

theorem fresh_id_not_key (m : Matchmaker) (w : World) (n : Nat) (hk : KeysGenerated m w)
    (hd : DistinctIds w.ids (w.idsUsed + (n + 1))) :
    w.ids w.idsUsed ∉ m.matchStore.keys ∧ w.ids w.idsUsed ∉ m.pendingMatches.keys := by
  have key : ∀ k, k ∈ m.matchStore.keys ++ m.pendingMatches.keys → k ≠ w.ids w.idsUsed := by
    intro k hmem e
    obtain ⟨i, hi, hik⟩ := hk k hmem
    have := hd i (by omega) w.idsUsed (by omega) (hik.trans e)
    omega
  exact ⟨fun h => key _ (List.mem_append_left _ h) rfl,
    fun h => key _ (List.mem_append_right _ h) rfl⟩

theorem keysGenerated_set_matchStore (m : Matchmaker) (w w2 : World) (v : Match)
    (q : List String) (hk : KeysGenerated m w) (hids : w2.ids = w.ids)
    (hused : w2.idsUsed = w.idsUsed + 1) :
    KeysGenerated { matchStore := m.matchStore.set (w.ids w.idsUsed) v, waitingPlayers := q,
                    pendingMatches := m.pendingMatches } w2 := by
  intro k hmem
  rw [hids, hused]
  simp only [List.mem_append] at hmem
  rcases hmem with h | h
  · rcases Store.mem_keys_set _ _ _ _ h with rfl | h
    · exact ⟨w.idsUsed, by omega, rfl⟩
    · obtain ⟨i, hi, e⟩ := hk k (List.mem_append_left _ h)
      exact ⟨i, by omega, e⟩
  · obtain ⟨i, hi, e⟩ := hk k (List.mem_append_right _ h)
    exact ⟨i, by omega, e⟩

theorem keysGenerated_set_pendingMatches (m : Matchmaker) (w w2 : World) (v : Match)
    (q : List String) (hk : KeysGenerated m w) (hids : w2.ids = w.ids)
    (hused : w2.idsUsed = w.idsUsed + 1) :
    KeysGenerated { matchStore := m.matchStore, waitingPlayers := q,
                    pendingMatches := m.pendingMatches.set (w.ids w.idsUsed) v } w2 := by
  intro k hmem
  rw [hids, hused]
  simp only [List.mem_append] at hmem
  rcases hmem with h | h
  · obtain ⟨i, hi, e⟩ := hk k (List.mem_append_left _ h)
    exact ⟨i, by omega, e⟩
  · rcases Store.mem_keys_set _ _ _ _ h with rfl | h
    · exact ⟨w.idsUsed, by omega, rfl⟩
    · obtain ⟨i, hi, e⟩ := hk k (List.mem_append_right _ h)
      exact ⟨i, by omega, e⟩

theorem addPlayers_totalPlayers (ps : List String) :
    ∀ (m : Matchmaker) (w : World),
      m.waitingPlayers.length < 3 → KeysGenerated m w →
      DistinctIds w.ids (w.idsUsed + ps.length) →
      (addPlayers m w ps).2.1.totalPlayers =
        m.totalPlayers + ps.length + 2 * ((m.waitingPlayers.length + ps.length) / 3) := by
  induction ps with
  | nil =>
    intro m w hq _ _
    simp only [addPlayers_nil, List.length_nil, Nat.add_zero]
    omega
  | cons p ps ih =>
    intro m w hq hk hd
    rw [addPlayers_cons]
    simp only [List.length_cons] at hd ⊢
    obtain ⟨hf1, hf2⟩ := fresh_id_not_key m w ps.length hk hd
    have hd2 : DistinctIds w.ids (w.idsUsed + 1 + ps.length) := by
      rwa [show w.idsUsed + 1 + ps.length = w.idsUsed + (ps.length + 1) by omega]
    rcases AddPlayer_cases m w p hq with ⟨hlt, e⟩ | ⟨a, b, hab, e⟩
    · rw [e]
      simp only []
      rw [ih _ _ (by simp; omega)
        (keysGenerated_set_pendingMatches m w w.afterNew _ _ hk rfl rfl) hd2]
      simp only [Matchmaker.totalPlayers, Store.totalPlayers_set_fresh _ _ _ hf2,
        List.length_append, List.length_singleton, pendingOf]
      omega
    · rw [e]
      simp only []
      rw [ih _ _ (by simp)
        (keysGenerated_set_matchStore m w (w.afterGroup a b p) _ _ hk rfl rfl) hd2]
      simp only [Matchmaker.totalPlayers, Store.totalPlayers_set_fresh _ _ _ hf1, hab,
        List.length_cons, List.length_nil, groupOf]
      omega

/-- C3 fails as stated: after `AddPlayer` of the distinct ids `p1`, `p2`, `p3` with
distinct match ids, the matches of `pendingMatches` and `matchStore` hold 5 players in
all (`[p1]`, `[p2]` pending and `[p1, p2, p3]` complete), not 3. -/
theorem C3_counterexample :
    ["p1", "p2", "p3"].Nodup ∧ DistinctIds testIds ["p1", "p2", "p3"].length ∧
    (addPlayers NewMatchmaker testWorld ["p1", "p2", "p3"]).2.1.totalPlayers = 5 ∧
    (addPlayers NewMatchmaker testWorld ["p1", "p2", "p3"]).2.1.totalPlayers ≠
      ["p1", "p2", "p3"].length :=
  ⟨by decide, by decide, by decide, by decide⟩

/-- C3, amended: after `N` calls of `AddPlayer` on a fresh matchmaker with pairwise
distinct generated match ids, the matches of `pendingMatches` and `matchStore` hold
`N + 2 * (N / 3)` players in all: every call that completes no match leaves a one-player
pending match behind, and every third call stores a three-player match. -/
theorem C3_total_players (ids : Nat → String) (clock : Nat → Int) (ps : List String)
    (hd : DistinctIds ids ps.length) :
    (addPlayers NewMatchmaker (World.start ids clock) ps).2.1.totalPlayers =
      ps.length + 2 * (ps.length / 3) := by
  have hk : KeysGenerated NewMatchmaker (World.start ids clock) := by
    intro k hmem
    simp [NewMatchmaker, Store.empty, Store.keys] at hmem
  have := addPlayers_totalPlayers ps NewMatchmaker (World.start ids clock)
    (by simp [NewMatchmaker]) hk (by simpa [World.start] using hd)
  rw [this]
  simp [NewMatchmaker, Matchmaker.totalPlayers, Store.totalPlayers, Store.empty, Store.values]

/-- C3, amended, at `p1 .. p4`: 4 calls leave 6 players in all. -/
theorem C3_total_players_witness :
    DistinctIds testIds ["p1", "p2", "p3", "p4"].length ∧
    (addPlayers NewMatchmaker (World.start testIds testClock)
      ["p1", "p2", "p3", "p4"]).2.1.totalPlayers =
      ["p1", "p2", "p3", "p4"].length + 2 * (["p1", "p2", "p3", "p4"].length / 3) :=
  ⟨by decide, C3_total_players testIds testClock ["p1", "p2", "p3", "p4"] (by decide)⟩

/-! ## The match entity -/

theorem Match.AddPlayer_third (m : Match) (w : World) (p : String)
    (h : m.Players.length = 2) :
    m.AddPlayer w p =
      ({ ID := m.ID, Players := m.Players ++ [p], Status := StatusReady,
         UpdatedAt := w.clock w.clockUsed, ReadyAt := w.clock w.clockUsed },
        { w with clockUsed := w.clockUsed + 1 }) := by
  simp [Match.AddPlayer, World.now, h]

theorem Match.AddPlayer_other (m : Match) (w : World) (p : String)
    (h : m.Players.length ≠ 2) :
    m.AddPlayer w p =
      ({ m with Players := m.Players ++ [p], UpdatedAt := w.clock w.clockUsed },
        { w with clockUsed := w.clockUsed + 1 }) := by
  simp [Match.AddPlayer, World.now, h]

theorem Match.addAll_nil (m : Match) (w : World) : m.addAll w [] = (m, w) := rfl

theorem Match.addAll_cons (m : Match) (w : World) (p : String) (ps : List String) :
    m.addAll w (p :: ps) = (m.AddPlayer w p).1.addAll (m.AddPlayer w p).2 ps := rfl

/-- Along `AddPlayer` calls the player count grows by one per call, and "ready exactly
from three players on" is kept. -/
theorem Match.addAll_status (ps : List String) :
    ∀ (m : Match) (w : World), (m.Status = StatusReady ↔ 3 ≤ m.Players.length) →
      (m.addAll w ps).1.Players.length = m.Players.length + ps.length ∧
      ((m.addAll w ps).1.Status = StatusReady ↔ 3 ≤ (m.addAll w ps).1.Players.length) := by
  induction ps with
  | nil => intro m w h; exact ⟨rfl, h⟩
  | cons p ps ih =>
    intro m w h
    rw [Match.addAll_cons]
    have hl : (m.AddPlayer w p).1.Players.length = m.Players.length + 1 := by
      by_cases h2 : m.Players.length = 2
      · rw [Match.AddPlayer_third m w p h2]; simp
      · rw [Match.AddPlayer_other m w p h2]; simp
    have hs : (m.AddPlayer w p).1.Status = StatusReady ↔
        3 ≤ (m.AddPlayer w p).1.Players.length := by
      rw [hl]
      by_cases h2 : m.Players.length = 2
      · rw [Match.AddPlayer_third m w p h2]; simp [h2]
      · rw [Match.AddPlayer_other m w p h2]
        simp only []
        rw [h]; omega
    have := ih (m.AddPlayer w p).1 (m.AddPlayer w p).2 hs
    refine ⟨?_, this.2⟩
    rw [this.1, hl, List.length_cons]
    omega

/-- Once a match has three players, further `AddPlayer` calls touch neither `ReadyAt` nor
`Status`. -/
theorem Match.addAll_frozen (ps : List String) :
    ∀ (m : Match) (w : World), 3 ≤ m.Players.length →
      (m.addAll w ps).1.ReadyAt = m.ReadyAt ∧ (m.addAll w ps).1.Status = m.Status := by
  induction ps with
  | nil => intro m w _; exact ⟨rfl, rfl⟩
  | cons p ps ih =>
    intro m w h
    rw [Match.addAll_cons]
    have h2 : m.Players.length ≠ 2 := by omega
    have := ih (m.AddPlayer w p).1 (m.AddPlayer w p).2
      (by rw [Match.AddPlayer_other m w p h2]
          simp only [List.length_append, List.length_singleton]; omega)
    rw [this.1, this.2, Match.AddPlayer_other m w p h2]
    exact ⟨rfl, rfl⟩

/-- C11 fails as stated: `NewMatch("p1")` followed by `AddPlayer` of `p2`, `p3`, `p4` is
a match with status `"ready"` and 4 players, not 3. -/
theorem C11_counterexample :
    ((NewMatch testWorld "p1").1.addAll (NewMatch testWorld "p1").2
      ["p2", "p3", "p4"]).1.Status = "ready" ∧
    ((NewMatch testWorld "p1").1.addAll (NewMatch testWorld "p1").2
      ["p2", "p3", "p4"]).1.IsReady = true ∧
    ((NewMatch testWorld "p1").1.addAll (NewMatch testWorld "p1").2
      ["p2", "p3", "p4"]).1.Players.length = 4 ∧
    ((NewMatch testWorld "p1").1.addAll (NewMatch testWorld "p1").2
      ["p2", "p3", "p4"]).1.Players.length ≠ 3 :=
  ⟨by decide, by decide, by decide, by decide⟩

/-- C11, amended: a match made by `NewMatch` and any sequence of `AddPlayer` calls has
one player more than calls were made and is ready if and only if it has at least 3
players; with at most two calls, which is all the matchmaker ever makes, that is if and
only if it has exactly 3. -/
theorem C11_ready_iff_at_least_three (w : World) (p : String) (ps : List String) :
    ((NewMatch w p).1.addAll (NewMatch w p).2 ps).1.Players.length = ps.length + 1 ∧
    (((NewMatch w p).1.addAll (NewMatch w p).2 ps).1.Status = "ready" ↔
      3 ≤ ((NewMatch w p).1.addAll (NewMatch w p).2 ps).1.Players.length) ∧
    (((NewMatch w p).1.addAll (NewMatch w p).2 ps).1.IsReady = true ↔
      3 ≤ ((NewMatch w p).1.addAll (NewMatch w p).2 ps).1.Players.length) ∧
    (ps.length ≤ 2 →
      (((NewMatch w p).1.addAll (NewMatch w p).2 ps).1.Status = "ready" ↔
        ((NewMatch w p).1.addAll (NewMatch w p).2 ps).1.Players.length = 3)) := by
  have h0 : (NewMatch w p).1.Status = StatusReady ↔ 3 ≤ (NewMatch w p).1.Players.length := by
    simp [NewMatch, StatusReady, StatusWaiting]
  obtain ⟨hlen, hst⟩ := Match.addAll_status ps (NewMatch w p).1 (NewMatch w p).2 h0
  have hlen2 : ((NewMatch w p).1.addAll (NewMatch w p).2 ps).1.Players.length
      = ps.length + 1 := by
    rw [hlen]; simp [NewMatch]; omega
  refine ⟨hlen2, hst, ?_, ?_⟩
  · rw [← hst]; simp [Match.IsReady]
  · intro hle
    rw [show ("ready" : String) = StatusReady from rfl, hst, hlen2]
    omega

/-- C11, amended, at `NewMatch("p1")` with `AddPlayer` of `p2`, `p3`. -/
theorem C11_ready_iff_at_least_three_witness :
    ["p2", "p3"].length ≤ 2 ∧
    ((NewMatch testWorld "p1").1.addAll (NewMatch testWorld "p1").2
      ["p2", "p3"]).1.Players.length = 3 ∧
    ((NewMatch testWorld "p1").1.addAll (NewMatch testWorld "p1").2
      ["p2", "p3"]).1.Status = "ready" :=
  ⟨by decide, by decide,
    ((C11_ready_iff_at_least_three testWorld "p1" ["p2", "p3"]).2.2.2 (by decide)).2
      (by decide)⟩

/-- C12: `(*Match).AddPlayer(playerID)` at clock reading `t` appends `playerID` to the
players (one more than before, the earlier ones and the id untouched), sets `UpdatedAt`
to `t` and reads the clock once; when the new count is 3 it sets the status to `"ready"`
and `ReadyAt` to `t`, otherwise it leaves status and `ReadyAt` as they were. -/
theorem C12_Match_AddPlayer_effect (m : Match) (w : World) (playerID : String) :
    (m.AddPlayer w playerID).1.Players = m.Players ++ [playerID] ∧
    (m.AddPlayer w playerID).1.Players.length = m.Players.length + 1 ∧
    (m.AddPlayer w playerID).1.ID = m.ID ∧
    (m.AddPlayer w playerID).1.UpdatedAt = w.clock w.clockUsed ∧
    (m.AddPlayer w playerID).2.clockUsed = w.clockUsed + 1 ∧
    (m.Players.length + 1 = 3 →
      (m.AddPlayer w playerID).1.Status = "ready" ∧
      (m.AddPlayer w playerID).1.ReadyAt = w.clock w.clockUsed ∧
      (m.AddPlayer w playerID).1.ReadyAt = (m.AddPlayer w playerID).1.UpdatedAt) ∧
    (m.Players.length + 1 ≠ 3 →
      (m.AddPlayer w playerID).1.Status = m.Status ∧
      (m.AddPlayer w playerID).1.ReadyAt = m.ReadyAt) := by
  by_cases h2 : m.Players.length = 2
  · rw [Match.AddPlayer_third m w playerID h2]
    refine ⟨rfl, by simp, rfl, rfl, rfl, fun _ => ⟨rfl, rfl, rfl⟩, fun h => ?_⟩
    omega
  · rw [Match.AddPlayer_other m w playerID h2]
    refine ⟨rfl, by simp, rfl, rfl, rfl, fun h => ?_, fun _ => ⟨rfl, rfl⟩⟩
    omega

/-- C12 at `AddPlayer("p2")` on `NewMatch("p1")`: the new count is 2, so status and
`ReadyAt` stay `"waiting"` and 0. -/
theorem C12_Match_AddPlayer_effect_witness :
    (NewMatch testWorld "p1").1.Players.length + 1 ≠ 3 ∧
    ((NewMatch testWorld "p1").1.AddPlayer (NewMatch testWorld "p1").2 "p2").1.Status
      = (NewMatch testWorld "p1").1.Status ∧
    ((NewMatch testWorld "p1").1.AddPlayer (NewMatch testWorld "p1").2 "p2").1.ReadyAt
      = (NewMatch testWorld "p1").1.ReadyAt :=
  ⟨by decide,
    (C12_Match_AddPlayer_effect (NewMatch testWorld "p1").1 (NewMatch testWorld "p1").2
      "p2").2.2.2.2.2.2 (by decide)⟩

/-- C13: on a match made by `NewMatch`, `ReadyAt` is 0 after every sequence of fewer than
two `AddPlayer` calls (fewer than 3 players); after two or more calls it is the clock
reading of the second call, the one that brought the count to 3 (the `UpdatedAt` that
call wrote), whatever the clock read at the later calls. -/
theorem C13_readyAt_set_once (w : World) (p : String) (ps : List String) :
    ((NewMatch w p).1.addAll (NewMatch w p).2 ps).1.Players.length = ps.length + 1 ∧
    (ps.length < 2 → ((NewMatch w p).1.addAll (NewMatch w p).2 ps).1.ReadyAt = 0) ∧
    (2 ≤ ps.length →
      ((NewMatch w p).1.addAll (NewMatch w p).2 ps).1.ReadyAt = w.clock (w.clockUsed + 2) ∧
      ((NewMatch w p).1.addAll (NewMatch w p).2 ps).1.ReadyAt =
        ((NewMatch w p).1.addAll (NewMatch w p).2 (ps.take 2)).1.UpdatedAt) := by
  have h0 : (NewMatch w p).1.Status = StatusReady ↔ 3 ≤ (NewMatch w p).1.Players.length := by
    simp [NewMatch, StatusReady, StatusWaiting]
  have hlen := (Match.addAll_status ps (NewMatch w p).1 (NewMatch w p).2 h0).1
  refine ⟨by rw [hlen]; simp [NewMatch]; omega, ?_, ?_⟩
  · intro h
    match ps, h with
    | [], _ => rfl
    | [_], _ => rfl
  · intro h
    match ps, h with
    | a :: b :: rest, _ =>
      have hf := Match.addAll_frozen rest
        (((NewMatch w p).1.AddPlayer (NewMatch w p).2 a).1.AddPlayer
          ((NewMatch w p).1.AddPlayer (NewMatch w p).2 a).2 b).1
        (((NewMatch w p).1.AddPlayer (NewMatch w p).2 a).1.AddPlayer
          ((NewMatch w p).1.AddPlayer (NewMatch w p).2 a).2 b).2
        (by simp [NewMatch, Match.AddPlayer, World.now, World.generateMatchID])
      rw [Match.addAll_cons, Match.addAll_cons, hf.1]
      exact ⟨rfl, rfl⟩

/-- C13 at `NewMatch("p1")` with `AddPlayer` of `p2`, `p3`, `p4`, `p5`: `ReadyAt` is the
reading of the call for `p3` (102), not a later one. -/
theorem C13_readyAt_set_once_witness :
    2 ≤ ["p2", "p3", "p4", "p5"].length ∧
    testWorld.clock (testWorld.clockUsed + 2) = 102 ∧
    ((NewMatch testWorld "p1").1.addAll (NewMatch testWorld "p1").2
      ["p2", "p3", "p4", "p5"]).1.UpdatedAt = 104 ∧
    ((NewMatch testWorld "p1").1.addAll (NewMatch testWorld "p1").2
      ["p2", "p3", "p4", "p5"]).1.ReadyAt = testWorld.clock (testWorld.clockUsed + 2) :=
  ⟨by decide, by decide, by decide,
    ((C13_readyAt_set_once testWorld "p1" ["p2", "p3", "p4", "p5"]).2.2 (by decide)).1⟩

/-! ## The formation loop on an arbitrary queue -/

theorem groupsOf_short (w : World) (q : List String) (h : q.length < 3) :
    groupsOf w q = [] := by
  match q, h with
  | [], _ => rfl
  | [_], _ => rfl
  | [_, _], _ => rfl
  | _ :: _ :: _ :: _, h => simp at h; omega

theorem groupsOf_step (w : World) (a b c : String) (rest : List String) :
    groupsOf w (a :: b :: c :: rest) =
      groupOf w a b c :: groupsOf (w.afterGroup a b c) rest := rfl

theorem groupsOf_length (q : List String) :
    ∀ w : World, (groupsOf w q).length = q.length / 3 := by
  induction q using list_threes with
  | short q hq =>
    intro w
    rw [groupsOf_short w q hq, List.length_nil]
    omega
  | step a b c rest ih =>
    intro w
    rw [groupsOf_step, List.length_cons, ih]
    simp only [List.length_cons]
    omega

theorem groupsOf_getElem (q : List String) :
    ∀ (w : World) (i : Nat), i < q.length / 3 →
      ∃ (mt : Match) (a b c : String),
        (groupsOf w q)[i]? = some mt ∧
        q[3 * i]? = some a ∧ q[3 * i + 1]? = some b ∧ q[3 * i + 2]? = some c ∧
        mt.Players = [a, b, c] ∧ mt.Status = StatusReady := by
  induction q using list_threes with
  | short q hq => intro w i hi; omega
  | step a b c rest ih =>
    intro w i hi
    rw [groupsOf_step]
    cases i with
    | zero =>
      exact ⟨groupOf w a b c, a, b, c, by simp, by simp, by simp, by simp, rfl, rfl⟩
    | succ j =>
      have hj : j < rest.length / 3 := by simp only [List.length_cons] at hi; omega
      obtain ⟨mt, x, y, z, h0, hx, hy, hz, hp, hs⟩ := ih (w.afterGroup a b c) j hj
      have e0 : 3 * (j + 1) = (3 * j) + 1 + 1 + 1 := by ring
      have e1 : 3 * (j + 1) + 1 = (3 * j + 1) + 1 + 1 + 1 := by ring
      have e2 : 3 * (j + 1) + 2 = (3 * j + 2) + 1 + 1 + 1 := by ring
      refine ⟨mt, x, y, z, ?_, ?_, ?_, ?_, hp, hs⟩
      · simpa only [List.getElem?_cons_succ] using h0
      · rw [e0]; simpa only [List.getElem?_cons_succ] using hx
      · rw [e1]; simpa only [List.getElem?_cons_succ] using hy
      · rw [e2]; simpa only [List.getElem?_cons_succ] using hz

theorem formLoop_formed_eq (pid : String) (q : List String) :
    ∀ (s : Store) (w : World) (pm : Option Match),
      (formLoop pid q s w pm).world.formed = w.formed ++ groupsOf w q := by
  induction q using list_threes with
  | short q hq =>
    intro s w pm
    rw [formLoop_short pid q hq, groupsOf_short w q hq, List.append_nil]
  | step a b c rest ih =>
    intro s w pm
    rw [formLoop_step, ih, groupsOf_step]
    simp [World.afterGroup]

theorem formLoop_waiting_eq (pid : String) (q : List String) :
    ∀ (s : Store) (w : World) (pm : Option Match),
      (formLoop pid q s w pm).waitingPlayers = q.drop (q.length - q.length % 3) := by
  induction q using list_threes with
  | short q hq =>
    intro s w pm
    rw [formLoop_short pid q hq]
    have : q.length - q.length % 3 = 0 := by
      rw [Nat.mod_eq_of_lt hq]; omega
    rw [this, List.drop_zero]
  | step a b c rest ih =>
    intro s w pm
    rw [formLoop_step, ih]
    have : (a :: b :: c :: rest).length - (a :: b :: c :: rest).length % 3
        = (rest.length - rest.length % 3) + 1 + 1 + 1 := by
      simp only [List.length_cons]
      omega
    rw [this]
    rfl

theorem formLoop_playerMatch_eq (pid : String) (q : List String) :
    ∀ (s : Store) (w : World) (pm : Option Match),
      (formLoop pid q s w pm).playerMatch =
        ((groupsOf w q).reverse.find? (fun g => g.Players.contains pid)).or pm := by
  induction q using list_threes with
  | short q hq =>
    intro s w pm
    rw [formLoop_short pid q hq, groupsOf_short w q hq]
    rfl
  | step a b c rest ih =>
    intro s w pm
    rw [formLoop_step, ih, groupsOf_step, List.reverse_cons, List.find?_append]
    have hp : (groupOf w a b c).Players = [a, b, c] := rfl
    cases hx : List.find? (fun g => g.Players.contains pid)
        (groupsOf (w.afterGroup a b c) rest).reverse with
    | some x => rfl
    | none =>
      have hsingle : List.find? (fun g => g.Players.contains pid) [groupOf w a b c]
          = if [a, b, c].contains pid = true then some (groupOf w a b c) else none := by
        cases h : [a, b, c].contains pid <;> simp only [List.find?, hp, h] <;> rfl
      rw [hsingle]
      by_cases hc : [a, b, c].contains pid = true
      · rw [if_pos hc, if_pos hc]; rfl
      · rw [if_neg hc, if_neg hc]; rfl

/-- C16: on a state with any queue `q` of length `n`, `formMatches(playerID)` returns
(the model is a total function) after `n / 3` iterations; iteration `i` creates a ready
match with players `[q[3i], q[3i+1], q[3i+2]]`; the queue left is the last `n % 3`
elements of `q` in order; the returned match is the last created one that contains
`playerID` when there is one (the pending map is then untouched), and otherwise a new
one-player match with status `"waiting"`, stored in `pendingMatches`. The returned error
is nil. -/
theorem C16_formMatches_drains_greedily (m : Matchmaker) (w : World) (playerID : String) :
    ∃ created : List Match,
      (m.formMatches w playerID).world.formed = w.formed ++ created ∧
      created.length = m.waitingPlayers.length / 3 ∧
      (∀ i, i < m.waitingPlayers.length / 3 →
        ∃ (mt : Match) (a b c : String),
          created[i]? = some mt ∧
          m.waitingPlayers[3 * i]? = some a ∧ m.waitingPlayers[3 * i + 1]? = some b ∧
          m.waitingPlayers[3 * i + 2]? = some c ∧
          mt.Players = [a, b, c] ∧ mt.Status = "ready") ∧
      (m.formMatches w playerID).mm.waitingPlayers =
        m.waitingPlayers.drop (m.waitingPlayers.length - m.waitingPlayers.length % 3) ∧
      (m.formMatches w playerID).mm.waitingPlayers.length = m.waitingPlayers.length % 3 ∧
      (m.formMatches w playerID).err = none ∧
      (∀ mt, created.reverse.find? (fun g => g.Players.contains playerID) = some mt →
        (m.formMatches w playerID).result = some mt ∧
        (m.formMatches w playerID).mm.pendingMatches = m.pendingMatches) ∧
      (created.reverse.find? (fun g => g.Players.contains playerID) = none →
        ∃ mt, (m.formMatches w playerID).result = some mt ∧
          mt.Players = [playerID] ∧ mt.Status = "waiting" ∧
          (m.formMatches w playerID).mm.pendingMatches.get mt.ID = some mt) := by
  have hf := formLoop_formed_eq playerID m.waitingPlayers m.matchStore w none
  have hw := formLoop_waiting_eq playerID m.waitingPlayers m.matchStore w none
  have hp := formLoop_playerMatch_eq playerID m.waitingPlayers m.matchStore w none
  rw [Option.or_none] at hp
  have hlen : (m.waitingPlayers.drop
      (m.waitingPlayers.length - m.waitingPlayers.length % 3)).length
      = m.waitingPlayers.length % 3 := by
    rw [List.length_drop]
    have := Nat.mod_le m.waitingPlayers.length 3
    omega
  refine ⟨groupsOf w m.waitingPlayers, ?_, groupsOf_length _ _,
    groupsOf_getElem m.waitingPlayers w, ?_, ?_, ?_, ?_, ?_⟩
  · rw [← hf]
    simp only [Matchmaker.formMatches]
    split
    · rfl
    · rfl
  · rw [← hw]
    simp only [Matchmaker.formMatches]
    split <;> rfl
  · rw [← hlen, ← hw]
    simp only [Matchmaker.formMatches]
    split <;> rfl
  · simp only [Matchmaker.formMatches]
    split <;> rfl
  · intro mt hmt
    rw [← hp] at hmt
    constructor <;> simp [Matchmaker.formMatches, hmt]
  · intro hnone
    rw [← hp] at hnone
    refine ⟨(NewMatch (formLoop playerID m.waitingPlayers m.matchStore w none).world
      playerID).1, ?_, rfl, rfl, ?_⟩
    · simp [Matchmaker.formMatches, hnone]
    · simp only [Matchmaker.formMatches, hnone]
      exact Store.get_set_self _ _ _

/-- C16 on seven queued ids `a .. g` and `playerID = "e"`: two iterations, `g` left in
the queue, the second match `[d, e, f]` returned. -/
theorem C16_formMatches_drains_greedily_witness :
    (crowded.formMatches testWorld "e").world.formed.map Match.Players
      = [["a", "b", "c"], ["d", "e", "f"]] ∧
    (crowded.formMatches testWorld "e").mm.waitingPlayers = ["g"] ∧
    (crowded.formMatches testWorld "e").result.map Match.Players = some ["d", "e", "f"] ∧
    ∃ created : List Match,
      (crowded.formMatches testWorld "e").world.formed = testWorld.formed ++ created ∧
      created.length = crowded.waitingPlayers.length / 3 :=
  ⟨by decide, by decide, by decide,
    (C16_formMatches_drains_greedily crowded testWorld "e").imp
      (fun _ h => ⟨h.1, h.2.1⟩)⟩

/-! ## One call forms at most one match -/

theorem runCalls_eq_addPlayers (cs : List Call) :
    ∀ (m : Matchmaker) (w : World),
      (runCalls m w cs).2 = (addPlayers m w (addedPlayers cs)).2 := by
  induction cs with
  | nil => intro m w; rfl
  | cons c cs ih =>
    intro m w
    cases c with
    | addPlayer p =>
      show (runCalls (m.AddPlayer w p).mm (m.AddPlayer w p).world cs).2 = _
      rw [ih]
      rfl
    | getMatch k =>
      show (runCalls (m.GetMatch w k).mm (m.GetMatch w k).world cs).2 = _
      rw [GetMatch_mm, GetMatch_world, ih]
      rfl

theorem AddPlayer_formed_le (m : Matchmaker) (w : World) (p : String)
    (hq : m.waitingPlayers.length < 3) :
    (m.AddPlayer w p).world.formed.length ≤ w.formed.length + 1 := by
  rcases AddPlayer_cases m w p hq with ⟨_, e⟩ | ⟨a, b, _, e⟩
  · rw [e]; simp [World.afterNew]
  · rw [e]; simp [World.afterGroup]

theorem AddPlayer_formed_eq (m : Matchmaker) (w : World) (p : String) :
    (m.AddPlayer w p).world.formed = w.formed ++ groupsOf w (m.waitingPlayers ++ [p]) := by
  rw [AddPlayer_formed, formLoop_formed_eq]

theorem AddPlayer_matchStore_cases (m : Matchmaker) (w : World) (p : String)
    (hq : m.waitingPlayers.length < 3) :
    (m.AddPlayer w p).mm.matchStore = m.matchStore ∨
    ∃ mt : Match, mt.Players.length = 3 ∧
      (m.AddPlayer w p).mm.matchStore = m.matchStore.set mt.ID mt := by
  rcases AddPlayer_cases m w p hq with ⟨_, e⟩ | ⟨a, b, _, e⟩
  · rw [e]; exact Or.inl rfl
  · rw [e]; exact Or.inr ⟨groupOf w a b p, rfl, rfl⟩

theorem addPlayers_queue (ps : List String) :
    ∀ (m : Matchmaker) (w : World), m.waitingPlayers.length < 3 →
      (addPlayers m w ps).2.1.waitingPlayers =
        (m.waitingPlayers ++ ps).drop
          ((m.waitingPlayers ++ ps).length - (m.waitingPlayers ++ ps).length % 3) := by
  induction ps with
  | nil =>
    intro m w hq
    rw [addPlayers_nil, List.append_nil, Nat.mod_eq_of_lt hq, Nat.sub_self, List.drop_zero]
  | cons p ps ih =>
    intro m w hq
    rw [addPlayers_cons]
    simp only []
    rw [ih _ _ (AddPlayer_waiting_lt m w p)]
    rcases AddPlayer_cases m w p hq with ⟨_, e⟩ | ⟨a, b, hab, e⟩
    · rw [e]
      simp only [List.append_assoc, List.singleton_append]
    · rw [e, hab]
      simp only [List.nil_append, List.cons_append, List.length_cons]
      have : ps.length + 1 + 1 + 1 - (ps.length + 1 + 1 + 1) % 3
          = (ps.length - ps.length % 3) + 1 + 1 + 1 := by omega
      rw [this]
      rfl

/-- C14 fails as stated: no sequence of `AddPlayer` calls on a fresh matchmaker is
followed by an `AddPlayer` call that runs the formation loop twice or more, that is,
that adds two or more matches to the history of formed matches. -/
theorem C14_counterexample :
    ¬ ∃ (ids : Nat → String) (clock : Nat → Int) (ps : List String) (p : String),
      (addPlayers NewMatchmaker (World.start ids clock) ps).2.2.formed.length + 2 ≤
        ((addPlayers NewMatchmaker (World.start ids clock) ps).2.1.AddPlayer
          (addPlayers NewMatchmaker (World.start ids clock) ps).2.2 p).world.formed.length := by
  rintro ⟨ids, clock, ps, p, h⟩
  have hr := (Reachable.fresh ids clock).addPlayers ps
  have := AddPlayer_formed_le _ (addPlayers NewMatchmaker (World.start ids clock) ps).2.2 p
    (reachable_waiting_lt hr)
  omega

/-- C14, amended: in every state reachable from a fresh matchmaker the queue holds at
most 2 ids, so one `AddPlayer` call runs the formation loop at most once and stores at
most one new complete match; in any state whatever a call forms `(len(queue) + 1) / 3`
matches, hence two or more if and only if 5 or more ids are already queued. -/
theorem C14_one_call_forms_at_most_one (m : Matchmaker) (w : World) (h : Reachable m w)
    (p : String) :
    m.waitingPlayers.length ≤ 2 ∧
    (m.AddPlayer w p).world.formed.length ≤ w.formed.length + 1 ∧
    ((m.AddPlayer w p).mm.matchStore = m.matchStore ∨
      ∃ mt : Match, mt.Players.length = 3 ∧
        (m.AddPlayer w p).mm.matchStore = m.matchStore.set mt.ID mt) ∧
    ∀ (m2 : Matchmaker) (w2 : World) (p2 : String),
      (m2.AddPlayer w2 p2).world.formed.length
        = w2.formed.length + (m2.waitingPlayers.length + 1) / 3 ∧
      (w2.formed.length + 2 ≤ (m2.AddPlayer w2 p2).world.formed.length ↔
        5 ≤ m2.waitingPlayers.length) := by
  have hq := reachable_waiting_lt h
  refine ⟨by omega, AddPlayer_formed_le m w p hq, AddPlayer_matchStore_cases m w p hq, ?_⟩
  intro m2 w2 p2
  have hlen : (m2.AddPlayer w2 p2).world.formed.length
      = w2.formed.length + (m2.waitingPlayers.length + 1) / 3 := by
    rw [AddPlayer_formed_eq, List.length_append, groupsOf_length, List.length_append,
      List.length_singleton]
  refine ⟨hlen, ?_⟩
  rw [hlen]
  omega

/-- C14, amended, at the state after `testCalls` (one id queued, the next call forms no
match), and on seven queued ids, where one call forms two matches. -/
theorem C14_one_call_forms_at_most_one_witness :
    Reachable (runCalls NewMatchmaker testWorld testCalls).2.1
      (runCalls NewMatchmaker testWorld testCalls).2.2 ∧
    (runCalls NewMatchmaker testWorld testCalls).2.1.waitingPlayers.length ≤ 2 ∧
    ((runCalls NewMatchmaker testWorld testCalls).2.1.AddPlayer
      (runCalls NewMatchmaker testWorld testCalls).2.2 "p5").world.formed.length ≤
      (runCalls NewMatchmaker testWorld testCalls).2.2.formed.length + 1 ∧
    5 ≤ crowded.waitingPlayers.length ∧
    (crowded.AddPlayer testWorld "h").world.formed.map Match.Players
      = [["a", "b", "c"], ["d", "e", "f"]] ∧
    testWorld.formed.length + 2 ≤ (crowded.AddPlayer testWorld "h").world.formed.length :=
  ⟨(Reachable.fresh testIds testClock).runCalls testCalls,
    (C14_one_call_forms_at_most_one _ _
      ((Reachable.fresh testIds testClock).runCalls testCalls) "p5").1,
    (C14_one_call_forms_at_most_one _ _
      ((Reachable.fresh testIds testClock).runCalls testCalls) "p5").2.1,
    by decide, by decide,
    ((C14_one_call_forms_at_most_one _ _
      ((Reachable.fresh testIds testClock).runCalls testCalls) "p5").2.2.2
      crowded testWorld "h").2.2 (by decide)⟩

/-- C17: after any `AddPlayer` and `GetMatch` calls on a fresh matchmaker, `N` of them
`AddPlayer`, the queue holds at most 2 ids, exactly `N % 3` of them, namely the last
`N % 3` arrivals in order; the next `AddPlayer` therefore appends to a queue of at most 2
and either leaves `matchStore` alone or stores one three-player match in it. -/
theorem C17_queue_holds_at_most_two (ids : Nat → String) (clock : Nat → Int)
    (cs : List Call) (p : String) :
    (runCalls NewMatchmaker (World.start ids clock) cs).2.1.waitingPlayers.length ≤ 2 ∧
    (runCalls NewMatchmaker (World.start ids clock) cs).2.1.waitingPlayers.length
      = (addedPlayers cs).length % 3 ∧
    (runCalls NewMatchmaker (World.start ids clock) cs).2.1.waitingPlayers
      = (addedPlayers cs).drop ((addedPlayers cs).length - (addedPlayers cs).length % 3) ∧
    (((runCalls NewMatchmaker (World.start ids clock) cs).2.1.AddPlayer
        (runCalls NewMatchmaker (World.start ids clock) cs).2.2 p).mm.matchStore
      = (runCalls NewMatchmaker (World.start ids clock) cs).2.1.matchStore ∨
     ∃ mt : Match, mt.Players.length = 3 ∧
      ((runCalls NewMatchmaker (World.start ids clock) cs).2.1.AddPlayer
        (runCalls NewMatchmaker (World.start ids clock) cs).2.2 p).mm.matchStore
      = (runCalls NewMatchmaker (World.start ids clock) cs).2.1.matchStore.set mt.ID mt) := by
  have hr := (Reachable.fresh ids clock).runCalls cs
  have hq := reachable_waiting_lt hr
  have hqueue : (runCalls NewMatchmaker (World.start ids clock) cs).2.1.waitingPlayers
      = (addedPlayers cs).drop
          ((addedPlayers cs).length - (addedPlayers cs).length % 3) := by
    rw [runCalls_eq_addPlayers, addPlayers_queue _ _ _ (by simp [NewMatchmaker])]
    simp [NewMatchmaker]
  refine ⟨by omega, ?_, hqueue, AddPlayer_matchStore_cases _ _ p hq⟩
  rw [hqueue, List.length_drop]
  have := Nat.mod_le (addedPlayers cs).length 3
  omega

/-- C17 at `testCalls`: four arrivals, one id (`p4`) queued. -/
theorem C17_queue_holds_at_most_two_witness :
    (addedPlayers testCalls).length = 4 ∧
    (runCalls NewMatchmaker (World.start testIds testClock) testCalls).2.1.waitingPlayers
      = ["p4"] ∧
    (runCalls NewMatchmaker (World.start testIds testClock)
      testCalls).2.1.waitingPlayers.length = (addedPlayers testCalls).length % 3 :=
  ⟨by decide, by decide,
    (C17_queue_holds_at_most_two testIds testClock testCalls "p5").2.1⟩

/-! ## Sizes of the two maps -/

theorem Store.keys_set_of_not_mem (s : Store) (k : String) (v : Match) (h : k ∉ s.keys) :
    (s.set k v).keys = k :: s.keys := by
  simp only [Store.keys, Store.set_of_not_mem s k v h, List.map_cons]

theorem Store.size_set_of_not_mem (s : Store) (k : String) (v : Match) (h : k ∉ s.keys) :
    (s.set k v).size = s.size + 1 := by
  simp only [Store.size, Store.set_of_not_mem s k v h, List.length_cons]

theorem addPlayers_sizes (ps : List String) :
    ∀ (m : Matchmaker) (w : World),
      m.waitingPlayers.length < 3 → KeysGenerated m w →
      DistinctIds w.ids (w.idsUsed + ps.length) →
      m.matchStore.keys.Nodup → m.pendingMatches.keys.Nodup → StoresDisjoint m →
      (addPlayers m w ps).2.1.matchStore.size =
        m.matchStore.size + (m.waitingPlayers.length + ps.length) / 3 ∧
      (addPlayers m w ps).2.1.pendingMatches.size + (m.waitingPlayers.length + ps.length) / 3
        = m.pendingMatches.size + ps.length ∧
      (addPlayers m w ps).2.1.matchStore.keys.Nodup ∧
      (addPlayers m w ps).2.1.pendingMatches.keys.Nodup ∧
      StoresDisjoint (addPlayers m w ps).2.1 := by
  induction ps with
  | nil =>
    intro m w hq _ _ hn1 hn2 hdis
    simp only [addPlayers_nil, List.length_nil, Nat.add_zero]
    exact ⟨by omega, by omega, hn1, hn2, hdis⟩
  | cons p ps ih =>
    intro m w hq hk hd hn1 hn2 hdis
    rw [addPlayers_cons]
    simp only [List.length_cons] at hd ⊢
    obtain ⟨hf1, hf2⟩ := fresh_id_not_key m w ps.length hk hd
    have hd2 : DistinctIds w.ids (w.idsUsed + 1 + ps.length) := by
      rwa [show w.idsUsed + 1 + ps.length = w.idsUsed + (ps.length + 1) by omega]
    rcases AddPlayer_cases m w p hq with ⟨hlt, e⟩ | ⟨a, b, hab, e⟩
    · rw [e]
      simp only []
      have hdis2 : StoresDisjoint
          { matchStore := m.matchStore, waitingPlayers := m.waitingPlayers ++ [p],
            pendingMatches := m.pendingMatches.set (w.ids w.idsUsed) (pendingOf w p) } := by
        intro k hk1 hk2
        simp only [Store.keys_set_of_not_mem _ _ _ hf2, List.mem_cons] at hk2
        rcases hk2 with rfl | hk2
        · exact hf1 hk1
        · exact hdis k hk1 hk2
      obtain ⟨h1, h2, h3, h4, h5⟩ := ih _ w.afterNew (by simp; omega)
        (keysGenerated_set_pendingMatches m w w.afterNew _ _ hk rfl rfl) hd2 hn1
        (by simp only [Store.keys_set_of_not_mem _ _ _ hf2]
            exact List.nodup_cons.2 ⟨hf2, hn2⟩)
        hdis2
      simp only [Store.size_set_of_not_mem _ _ _ hf2, List.length_append,
        List.length_singleton] at h1 h2
      exact ⟨by rw [h1]; congr 2; omega,
        by rw [show m.waitingPlayers.length + (ps.length + 1)
              = m.waitingPlayers.length + 1 + ps.length by omega]; omega,
        h3, h4, h5⟩
    · rw [e]
      simp only []
      have hdis2 : StoresDisjoint
          { matchStore := m.matchStore.set (w.ids w.idsUsed) (groupOf w a b p),
            waitingPlayers := [], pendingMatches := m.pendingMatches } := by
        intro k hk1 hk2
        simp only [Store.keys_set_of_not_mem _ _ _ hf1, List.mem_cons] at hk1
        rcases hk1 with rfl | hk1
        · exact hf2 hk2
        · exact hdis k hk1 hk2
      obtain ⟨h1, h2, h3, h4, h5⟩ := ih _ (w.afterGroup a b p) (by simp)
        (keysGenerated_set_matchStore m w (w.afterGroup a b p) _ _ hk rfl rfl) hd2
        (by simp only [Store.keys_set_of_not_mem _ _ _ hf1]
            exact List.nodup_cons.2 ⟨hf1, hn1⟩)
        hn2 hdis2
      simp only [Store.size_set_of_not_mem _ _ _ hf1, List.length_nil, Nat.zero_add,
        hab, List.length_cons] at h1 h2 ⊢
      exact ⟨by omega, by omega, h3, h4, h5⟩

/-- C18: after `N` calls of `AddPlayer` on a fresh matchmaker with pairwise distinct
generated match ids, `matchStore` has `N / 3` entries and `pendingMatches` has
`N - N / 3`, no key occurs twice in a map, and no key is in both maps. -/
theorem C18_store_sizes (ids : Nat → String) (clock : Nat → Int) (ps : List String)
    (hd : DistinctIds ids ps.length) :
    (addPlayers NewMatchmaker (World.start ids clock) ps).2.1.matchStore.size
      = ps.length / 3 ∧
    (addPlayers NewMatchmaker (World.start ids clock) ps).2.1.pendingMatches.size
      = ps.length - ps.length / 3 ∧
    (addPlayers NewMatchmaker (World.start ids clock) ps).2.1.matchStore.keys.Nodup ∧
    (addPlayers NewMatchmaker (World.start ids clock) ps).2.1.pendingMatches.keys.Nodup ∧
    (∀ k, k ∈ (addPlayers NewMatchmaker (World.start ids clock) ps).2.1.matchStore.keys →
      k ∉ (addPlayers NewMatchmaker (World.start ids clock) ps).2.1.pendingMatches.keys) := by
  have hk : KeysGenerated NewMatchmaker (World.start ids clock) := by
    intro k hmem
    simp [NewMatchmaker, Store.empty, Store.keys] at hmem
  obtain ⟨h1, h2, h3, h4, h5⟩ := addPlayers_sizes ps NewMatchmaker (World.start ids clock)
    (by simp [NewMatchmaker]) hk (by simpa [World.start] using hd)
    (by simp [NewMatchmaker, Store.empty, Store.keys])
    (by simp [NewMatchmaker, Store.empty, Store.keys])
    (by intro k hk1; simp [NewMatchmaker, Store.empty, Store.keys] at hk1)
  have e1 : NewMatchmaker.matchStore.size = 0 := rfl
  have e2 : NewMatchmaker.pendingMatches.size = 0 := rfl
  have e3 : NewMatchmaker.waitingPlayers.length = 0 := rfl
  rw [e1, e3] at h1
  rw [e2, e3] at h2
  have := Nat.div_le_self ps.length 3
  exact ⟨by omega, by omega, h3, h4, h5⟩

/-- C18 at `p1 .. p4`: one complete match, three pending ones. -/
theorem C18_store_sizes_witness :
    DistinctIds testIds ["p1", "p2", "p3", "p4"].length ∧
    (addPlayers NewMatchmaker (World.start testIds testClock)
      ["p1", "p2", "p3", "p4"]).2.1.matchStore.size = 1 ∧
    (addPlayers NewMatchmaker (World.start testIds testClock)
      ["p1", "p2", "p3", "p4"]).2.1.pendingMatches.size = 3 ∧
    (addPlayers NewMatchmaker (World.start testIds testClock)
      ["p1", "p2", "p3", "p4"]).2.1.matchStore.size = ["p1", "p2", "p3", "p4"].length / 3 :=
  ⟨by decide, by decide, by decide,
    (C18_store_sizes testIds testClock ["p1", "p2", "p3", "p4"] (by decide)).1⟩

/-! ## Match ids -/

theorem letters_length : letters.length = 62 := by decide

theorem letters_alphanumeric : ∀ c ∈ letters, c.isAlphanum = true := by decide

theorem letterIndex_bounds (x : Int) (h : 0 ≤ x) : 0 ≤ letterIndex x ∧ letterIndex x < 62 := by
  unfold letterIndex
  rw [letters_length]
  exact ⟨Int.tmod_nonneg _ h, Int.tmod_lt_of_pos _ (by decide)⟩

theorem letterAt_of_nonneg (x : Int) (h : 0 ≤ x) :
    ∃ c, letterAt x = some c ∧ c.isAlphanum = true := by
  obtain ⟨h0, h1⟩ := letterIndex_bounds x h
  have hlt : (letterIndex x).toNat < letters.length := by
    rw [letters_length]; omega
  refine ⟨letters[(letterIndex x).toNat], ?_, letters_alphanumeric _ (List.getElem_mem _)⟩
  unfold letterAt
  rw [if_pos ⟨h0, by rw [letters_length]; exact_mod_cast h1⟩]
  exact List.getElem?_eq_getElem hlt

theorem randomBytes_of_nonneg (nanos : Nat → Int) (hn : ∀ i, 0 ≤ nanos i) (n : Nat) :
    ∀ i, ∃ l, randomBytes nanos i n = some l ∧ l.length = n ∧
      ∀ c ∈ l, c.isAlphanum = true := by
  induction n with
  | zero => intro i; exact ⟨[], rfl, rfl, by simp⟩
  | succ n ih =>
    intro i
    obtain ⟨c, hc, hal⟩ := letterAt_of_nonneg (nanos i) (hn i)
    obtain ⟨l, hl, hlen, hall⟩ := ih (i + 1)
    refine ⟨c :: l, ?_, by simp [hlen], ?_⟩
    · simp only [randomBytes, hc, hl, Option.map_some']
    · intro d hd
      rcases List.mem_cons.1 hd with rfl | hd
      · exact hal
      · exact hall d hd

/-- C19: with non-negative clock readings, every index `randomString` computes lies
within the 62 letters, and `randomString(n)` returns (no panic) a string of exactly `n`
characters, all alphanumeric; an id from `generateMatchID` is then `"match_"`, the
timestamp, `"_"` and exactly 8 alphanumeric characters, 29 characters in all when the
timestamp has the 14 digits of the layout. -/
theorem C19_randomString_in_bounds (nanos : Nat → Int) (hn : ∀ i, 0 ≤ nanos i) (n : Nat)
    (stamp : String) (hstamp : stamp.length = 14 ∧ ∀ c ∈ stamp.data, c.isDigit = true) :
    letters.length = 62 ∧
    (∀ i, 0 ≤ letterIndex (nanos i) ∧ letterIndex (nanos i) < 62) ∧
    (∃ s : String, randomString nanos n = some s ∧ s.length = n ∧
      ∀ c ∈ s.data, c.isAlphanum = true) ∧
    (∃ (id ts suffix : String), generateMatchID stamp nanos = some id ∧
      id = "match_" ++ ts ++ "_" ++ suffix ∧
      ts.length = 14 ∧ (∀ c ∈ ts.data, c.isDigit = true) ∧
      suffix.length = 8 ∧ (∀ c ∈ suffix.data, c.isAlphanum = true) ∧
      id.length = 29) := by
  refine ⟨letters_length, fun i => letterIndex_bounds _ (hn i), ?_, ?_⟩
  · obtain ⟨l, hl, hlen, hall⟩ := randomBytes_of_nonneg nanos hn n 0
    exact ⟨String.mk l, by simp [randomString, hl], by simpa using hlen, hall⟩
  · obtain ⟨l, hl, hlen, hall⟩ := randomBytes_of_nonneg nanos hn 8 0
    refine ⟨"match_" ++ stamp ++ "_" ++ String.mk l, stamp, String.mk l, ?_, rfl, hstamp.1,
      hstamp.2, by simpa using hlen, hall, ?_⟩
    · simp [generateMatchID, randomString, hl]
    · have h6 : ("match_" : String).length = 6 := by decide
      have h1 : ("_" : String).length = 1 := by decide
      simp only [String.length_append, h6, h1, hstamp.1]
      have : (String.mk l).length = 8 := by simpa using hlen
      omega

/-- C19 at readings 1000, 1061, ... and the timestamp `20240101120000`. -/
theorem C19_randomString_in_bounds_witness :
    (∀ i, 0 ≤ testNanos i) ∧
    ("20240101120000".length = 14 ∧ ∀ c ∈ "20240101120000".data, c.isDigit = true) ∧
    generateMatchID "20240101120000" testNanos = some "match_20240101120000_ihgfedcb" ∧
    ∃ s : String, randomString testNanos 3 = some s ∧ s.length = 3 ∧
      ∀ c ∈ s.data, c.isAlphanum = true :=
  ⟨fun i => by unfold testNanos; omega, ⟨by decide, by decide⟩, by decide,
    (C19_randomString_in_bounds testNanos (fun i => by unfold testNanos; omega) 3
      "20240101120000" ⟨by decide, by decide⟩).2.2.1⟩

/-! ## Metrics -/

theorem lookup_filter_ne_any {β : Type} (es : List (String × β)) (k k2 : String)
    (h : k2 ≠ k) :
    List.lookup k2 (es.filter (fun e => e.1 != k)) = List.lookup k2 es := by
  induction es with
  | nil => rfl
  | cons e es ih =>
    obtain ⟨a, b⟩ := e
    by_cases hak : a = k
    · subst hak
      have h1 : (k2 == a) = false := by simpa using h
      simp [List.filter, List.lookup, h1, ih]
    · have h2 : (a != k) = true := by simpa using hak
      simp only [List.filter, h2, List.lookup]
      rw [ih]

theorem EndpointMap.read_written {β : Type} (s : EndpointMap β) (k : String) (v : β) :
    (s.set k v).get k = some v := by
  simp [EndpointMap.set, EndpointMap.get, List.lookup]

theorem EndpointMap.read_other {β : Type} (s : EndpointMap β) (k k2 : String) (v : β)
    (h : k2 ≠ k) : (s.set k v).get k2 = s.get k2 := by
  have h1 : (k2 == k) = false := by simpa using h
  simp only [EndpointMap.set, EndpointMap.get, List.lookup, h1]
  exact lookup_filter_ne_any s.entries k k2 h

theorem wrapInt64_of_fits (x : Int) (h0 : -9223372036854775808 ≤ x)
    (h1 : x < 9223372036854775808) : wrapInt64 x = x := by
  unfold wrapInt64
  omega

theorem wrapInt64_add_left (x y : Int) : wrapInt64 (wrapInt64 x + y) = wrapInt64 (x + y) := by
  unfold wrapInt64
  omega

theorem foldl_wrap (l : List Int) :
    ∀ a : Int, l.foldl (fun total t => wrapInt64 (total + t)) (wrapInt64 a)
      = wrapInt64 (a + l.sum) := by
  induction l with
  | nil => intro a; simp
  | cons x l ih =>
    intro a
    rw [List.foldl_cons, wrapInt64_add_left, ih, List.sum_cons, add_assoc]

theorem sumDurations_eq (l : List Int) : sumDurations l = wrapInt64 l.sum := by
  have := foldl_wrap l 0
  rw [show wrapInt64 0 = 0 by decide, zero_add] at this
  exact this

theorem StopTimer_timingsOf_self (m : Metrics) (e : String) (d : Int) :
    (m.StopTimer e d).timingsOf e = m.timingsOf e ++ [d] := by
  simp [Metrics.StopTimer, Metrics.timingsOf, EndpointMap.read_written]

theorem StopTimer_timingsOf_of_ne (m : Metrics) (e e2 : String) (d : Int) (h : e2 ≠ e) :
    (m.StopTimer e2 d).timingsOf e = m.timingsOf e := by
  simp only [Metrics.StopTimer, Metrics.timingsOf]
  rw [EndpointMap.read_other _ _ _ _ (Ne.symm h)]

/-- What `GetAverageRequestTime(e)` computes in any state: 0 when no sample is recorded
for `e`, and otherwise the 64-bit sum of the samples of `e` divided by their count,
truncating toward zero, which is the exact sum divided by the count whenever the exact
sum fits in 64 bits; `StopTimer(e, _)` appends its duration to the samples of `e`, and a
`StopTimer` for another endpoint changes neither the samples nor the average of `e`. -/
theorem GetAverageRequestTime_value (m : Metrics) (e : String) :
    (m.timingsOf e = [] → m.GetAverageRequestTime e = 0) ∧
    (m.timingsOf e ≠ [] →
      m.GetAverageRequestTime e =
        Int.tdiv (wrapInt64 (m.timingsOf e).sum) (m.timingsOf e).length) ∧
    (m.timingsOf e ≠ [] → -9223372036854775808 ≤ (m.timingsOf e).sum →
      (m.timingsOf e).sum < 9223372036854775808 →
      m.GetAverageRequestTime e = Int.tdiv (m.timingsOf e).sum (m.timingsOf e).length) ∧
    (∀ d : Int, (m.StopTimer e d).timingsOf e = m.timingsOf e ++ [d]) ∧
    (∀ (e2 : String) (d : Int), e2 ≠ e →
      (m.StopTimer e2 d).timingsOf e = m.timingsOf e ∧
      (m.StopTimer e2 d).GetAverageRequestTime e = m.GetAverageRequestTime e) := by
  have hne : m.timingsOf e ≠ [] →
      m.GetAverageRequestTime e =
        Int.tdiv (wrapInt64 (m.timingsOf e).sum) (m.timingsOf e).length := by
    intro h
    have hl : (m.timingsOf e).length ≠ 0 := fun h0 => h (List.length_eq_zero.1 h0)
    simp only [Metrics.GetAverageRequestTime, hl, if_false, sumDurations_eq]
  refine ⟨?_, hne, ?_, StopTimer_timingsOf_self m e, ?_⟩
  · intro h
    simp [Metrics.GetAverageRequestTime, h]
  · intro h h0 h1
    rw [hne h, wrapInt64_of_fits _ h0 h1]
  · intro e2 d h
    have ht := StopTimer_timingsOf_of_ne m e e2 d h
    refine ⟨ht, ?_⟩
    simp only [Metrics.GetAverageRequestTime, ht]

/-- The average at samples 10 and 7 for `join` and 4 for `status`: 17 / 2 = 8 for
`join`. -/
theorem GetAverageRequestTime_value_sampled :
    sampled.timingsOf "join" = [10, 7] ∧
    sampled.GetAverageRequestTime "join" = 8 ∧
    sampled.GetAverageRequestTime "join" =
      Int.tdiv (sampled.timingsOf "join").sum (sampled.timingsOf "join").length :=
  ⟨by decide, by decide,
    (GetAverageRequestTime_value sampled "join").2.2.1 (by decide) (by decide) (by decide)⟩

/-- C20, the code at the input where it leaves the claim: after two
`StopTimer("join", start)` calls that each recorded the largest duration, the two samples
sum to 18446744073709551614 and their average, sum divided by count, is
9223372036854775807; `GetAverageRequestTime("join")` returns -1, because the 64-bit total
wrapped around to -2. With no sample recorded it returns 0, as the claim says. -/
theorem C20_average_wraps_on_overflow :
    saturated.timingsOf "join" = [9223372036854775807, 9223372036854775807] ∧
    (saturated.timingsOf "join").sum = 18446744073709551614 ∧
    Int.tdiv (saturated.timingsOf "join").sum (saturated.timingsOf "join").length
      = 9223372036854775807 ∧
    sumDurations (saturated.timingsOf "join") = -2 ∧
    saturated.GetAverageRequestTime "join" = -1 ∧
    saturated.GetAverageRequestTime "join" ≠
      Int.tdiv (saturated.timingsOf "join").sum (saturated.timingsOf "join").length ∧
    NewMetrics.GetAverageRequestTime "join" = 0 :=
  ⟨by decide, by decide, by decide, by decide, by decide, by decide, by decide⟩

end MatchMaker
